import Mathlib

/-!
lintstructpadding: field-layout analysis and declaration reconstruction

A shallow embedding of `main.go` (`getTypeSize`, `analyzeStruct`,
`generateReorderedStruct`) together with the properties of these functions.

Modelling conventions.

* `go/ast` nodes are inductive types and structures carrying the fields the program reads
  or copies.  A `token.Pos` is a natural number, `token.NoPos` is `0`.
* Go strings are Lean strings.  Go compares strings byte-wise; on valid UTF-8 (the only
  identifiers the Go parser produces) that order is the code-point order used by Lean.
* A `*ast.Field` is a `FieldRef`: an address together with the pointee.  Every element of a
  `FieldList.List` is allocated on its own (by the parser, or by `generateReorderedStruct`),
  so the address of a declaration is its position in the list that holds it.
* Lean reserves the word `Type`, so the field `Type` of a node is written `Type_`.
* `sort.Slice` belongs to the Go standard library.  It is taken by its documented contract
  (`SliceSorter`): the result is a permutation of the input that is ordered with respect to
  `less`, with no promise about the relative order of equal elements.  The insertion sort
  that `sort.Slice` runs on slices of at most twelve elements is an instance
  (`insertionSorter`).  The pattern-defeating quicksort that Go 1.19 and later run on longer
  slices is modelled as a partial function (`pdqsortSlice`), with no result where the Go code
  takes a path outside the model; it serves to evaluate `sort.Slice` at one record.
* The driver (`lintFile`, the loop of `main`) is modelled on the outcome of parsing: a file
  is a parse error or the list of its struct types; printing is left out.
-/

namespace LintStructPadding

/-! ## Syntax trees (`go/ast`) -/

/-- The node `ast.Ident`: an identifier with its position. -/
structure Ident where
  NamePos : Nat
  Name : String
  deriving DecidableEq, Repr

/-- The node `ast.CommentGroup`: the text of the comments of a group. -/
structure CommentGroup where
  List : List String
  deriving DecidableEq, Repr

/-- The node `ast.BasicLit`: a literal (a field tag is one). -/
structure BasicLit where
  ValuePos : Nat
  Kind : Nat
  Value : String
  deriving DecidableEq, Repr

/-- The implementations of `ast.Expr`.  The parameter and member lists of function,
interface and inline struct types are kept as lists of (names, type). -/
inductive Expr where
  | BadExpr
  | Ident (Name : String)
  | Ellipsis (Elt : Option Expr)
  | BasicLit (Value : String)
  | FuncLit (Type_ : Expr)
  | CompositeLit (Type_ : Option Expr) (Elts : List Expr)
  | ParenExpr (X : Expr)
  | SelectorExpr (X : Expr) (Sel : String)
  | IndexExpr (X : Expr) (Index : Expr)
  | IndexListExpr (X : Expr) (Indices : List Expr)
  | SliceExpr (X : Expr) (Low High Max : Option Expr)
  | TypeAssertExpr (X : Expr) (Type_ : Option Expr)
  | CallExpr (Fun : Expr) (Args : List Expr)
  | StarExpr (X : Expr)
  | UnaryExpr (Op : Nat) (X : Expr)
  | BinaryExpr (X : Expr) (Op : Nat) (Y : Expr)
  | KeyValueExpr (Key : Expr) (Value : Expr)
  | ArrayType (Len : Option Expr) (Elt : Expr)
  | StructType (Fields : List (List String × Expr))
  | FuncType (Params Results : List (List String × Expr))
  | InterfaceType (Methods : List (List String × Expr))
  | MapType (Key : Expr) (Value : Expr)
  | ChanType (Dir : Nat) (Value : Expr)

/-- The node `ast.Field`: one declaration of a field list. -/
structure Field where
  Doc : Option CommentGroup
  Names : List Ident
  Type_ : Expr
  Tag : Option BasicLit
  Comment : Option CommentGroup

/-- The node `ast.FieldList`. -/
structure FieldList where
  Opening : Nat
  List : List Field
  Closing : Nat

/-- The node `ast.StructType`; `Fields` may be nil. -/
structure StructType where
  Struct : Nat
  Fields : Option FieldList
  Incomplete : Bool

/-- A `*ast.Field`: the address of a declaration and the declaration it points to. -/
structure FieldRef where
  addr : Nat
  val : Field

/-- The struct `FieldInfo` of `main.go`. -/
structure FieldInfo where
  Name : String
  Field : FieldRef
  TypeSize : Nat

/-! ## `getTypeSize` -/

/-- The function `getTypeSize` of `main.go`. -/
def getTypeSize (expr : Expr) : Nat :=
  match expr with
  | .Ident name =>
    if name = "bool" then 1
    else if name = "int8" ∨ name = "uint8" ∨ name = "byte" then 1
    else if name = "int16" ∨ name = "uint16" then 2
    else if name = "int32" ∨ name = "uint32" ∨ name = "rune" ∨ name = "float32" then 4
    else if name = "int64" ∨ name = "uint64" ∨ name = "float64" ∨ name = "complex64" then 8
    else if name = "complex128" then 16
    else if name = "int" ∨ name = "uint" ∨ name = "uintptr" then 8
    else if name = "string" then 16
    else 8
  | .StarExpr _ => 8
  | .ArrayType len _ =>
    match len with
    | none => 24
    | some _ => 8
  | .MapType _ _ => 8
  | .ChanType _ _ => 8
  | .InterfaceType _ => 16
  | .FuncType _ _ => 8
  | _ => 8

/-- The identifiers that `getTypeSize` gives a size of their own. -/
def basicTypeNames : List String :=
  ["bool", "int8", "uint8", "byte", "int16", "uint16", "int32", "uint32", "rune", "float32",
   "int64", "uint64", "float64", "complex64", "complex128", "int", "uint", "uintptr", "string"]

/-- The type expressions with a case of their own in `getTypeSize`: a basic-type identifier,
or a pointer, array, map, channel, interface or function type. -/
def hasOwnCase (expr : Expr) : Bool :=
  match expr with
  | .Ident name => decide (name ∈ basicTypeNames)
  | .StarExpr _ => true
  | .ArrayType _ _ => true
  | .MapType _ _ => true
  | .ChanType _ _ => true
  | .InterfaceType _ => true
  | .FuncType _ _ => true
  | _ => false

/-! ## `analyzeStruct` -/

/-- The pointers held by a field list whose first element has address `n`. -/
def fieldRefsFrom (n : Nat) : List Field → List FieldRef
  | [] => []
  | f :: fs => ⟨n, f⟩ :: fieldRefsFrom (n + 1) fs

/-- The pointers `structType.Fields.List` holds: element `i` has address `i`. -/
def fieldRefs (list : List Field) : List FieldRef :=
  fieldRefsFrom 0 list

/-- The body of the flattening loop of `analyzeStruct` (lines 70-86): the entries that one
declaration appends to `fields`. -/
def fieldInfos (field : FieldRef) : List FieldInfo :=
  let typeSize := getTypeSize field.val.Type_
  if field.val.Names.length > 0 then
    field.val.Names.map (fun name => { Field := field, TypeSize := typeSize, Name := name.Name })
  else
    [{ Field := field, TypeSize := typeSize, Name := "" }]

/-- The flattening loop of `analyzeStruct` (lines 67-87): the value of `fields` after it. -/
def flattenFields (list : List FieldRef) : List FieldInfo :=
  list.flatMap fieldInfos

/-- The comparison handed to `sort.Slice` (lines 92-97), on the two elements compared.
The names are compared as lists of characters, which is the order `<` of `String`
(`String.lt_iff_toList_lt`) in a form that evaluates. -/
def less (a b : FieldInfo) : Bool :=
  if a.TypeSize ≠ b.TypeSize then decide (a.TypeSize > b.TypeSize)
  else decide (a.Name.toList < b.Name.toList)

/-- The comparison loop of `analyzeStruct` (lines 99-105): the value of `needsReordering`. -/
def needsReordering : List FieldInfo → List FieldInfo → Bool
  | field :: fields, sorted :: sortedFields =>
    if field.TypeSize ≠ sorted.TypeSize ∨ field.Name ≠ sorted.Name then true
    else needsReordering fields sortedFields
  | _, _ => false

/-- The contract of `sort.Slice` from the Go standard library, on slices of `FieldInfo`: the
sorted slice is a permutation of the given one, and when `less` is a strict weak order no
element is `less` than an element before it.  Nothing is promised on equal elements. -/
structure SliceSorter where
  sort : (FieldInfo → FieldInfo → Bool) → List FieldInfo → List FieldInfo
  perm : ∀ lt xs, (sort lt xs).Perm xs
  sorted : ∀ lt xs, (∀ a b, lt a b = true → lt b a = false) →
    (∀ a b c, lt a b = false → lt b c = false → lt a c = false) →
    (sort lt xs).Pairwise (fun a b => lt b a = false)

/-- The function `analyzeStruct` of `main.go`; a nil slice is the empty list. -/
def analyzeStruct (srt : SliceSorter) (structType : StructType) : List FieldInfo × Bool :=
  match structType.Fields with
  | none => ([], false)
  | some fieldList =>
    if fieldList.List.length ≤ 1 then ([], false)
    else
      let fields := flattenFields (fieldRefs fieldList.List)
      let sortedFields := srt.sort less fields
      (sortedFields, needsReordering fields sortedFields)

/-! ## Insertion sort, the small-slice path of `sort.Slice` -/

/-- The inner loop of `insertionSort_func`: the new last element `x` moves left while it
is `lt` than its left neighbour.  The prefix is held from its last element to its first. -/
def sinkLast (lt : FieldInfo → FieldInfo → Bool) (x : FieldInfo) : List FieldInfo → List FieldInfo
  | [] => [x]
  | y :: ys => if lt x y then y :: sinkLast lt x ys else x :: y :: ys

/-- The outer loop of `insertionSort_func`: `done` is the ordered prefix, last to first. -/
def insertionLoop (lt : FieldInfo → FieldInfo → Bool) : List FieldInfo → List FieldInfo → List FieldInfo
  | done, [] => done.reverse
  | done, x :: xs => insertionLoop lt (sinkLast lt x done) xs

/-- The function `insertionSort_func` of package `sort` (`zsortfunc.go`), on the whole
slice. -/
def insertionSort_func (lt : FieldInfo → FieldInfo → Bool) (xs : List FieldInfo) : List FieldInfo :=
  insertionLoop lt [] xs

/-- The insertion sort of package `sort` meets the contract of `sort.Slice`. -/
def insertionSorter : SliceSorter where
  sort := insertionSort_func
  perm := by
    intro lt xs
    have hsink : ∀ x l, (sinkLast lt x l).Perm (x :: l) := by
      intro x l
      induction l with
      | nil => exact List.Perm.refl _
      | cons y ys ih =>
        unfold sinkLast
        split
        · exact (List.Perm.cons y ih).trans (List.Perm.swap x y ys)
        · exact List.Perm.refl _
    have hloop : ∀ ys done, (insertionLoop lt done ys).Perm (done ++ ys) := by
      intro ys
      induction ys with
      | nil =>
        intro done
        simp [insertionLoop]
      | cons y ys ih =>
        intro done
        unfold insertionLoop
        refine (ih (sinkLast lt y done)).trans ?_
        refine ((hsink y done).append_right ys).trans ?_
        simpa using (@List.perm_middle _ y done ys).symm
    simpa [insertionSort_func] using hloop xs []
  sorted := by
    intro lt xs hasym htrans
    have hmem : ∀ x l z, z ∈ sinkLast lt x l → z = x ∨ z ∈ l := by
      intro x l
      induction l with
      | nil => intro z hz; simpa [sinkLast] using hz
      | cons y ys ih =>
        intro z hz
        unfold sinkLast at hz
        split at hz
        · rcases List.mem_cons.1 hz with h | h
          · exact Or.inr (h ▸ List.mem_cons_self _ _)
          · rcases ih z h with h | h
            · exact Or.inl h
            · exact Or.inr (List.mem_cons_of_mem _ h)
        · rcases List.mem_cons.1 hz with h | h
          · exact Or.inl h
          · exact Or.inr h
    have hsink : ∀ x l, l.Pairwise (fun a b => lt a b = false) →
        (sinkLast lt x l).Pairwise (fun a b => lt a b = false) := by
      intro x l
      induction l with
      | nil => intro _; simp [sinkLast]
      | cons y ys ih =>
        intro hp
        have hy := List.pairwise_cons.1 hp
        unfold sinkLast
        split
        · rename_i hxy
          refine List.pairwise_cons.2 ⟨?_, ih hy.2⟩
          intro z hz
          rcases hmem x ys z hz with h | h
          · subst h
            cases hyz : lt y z
            · rfl
            · have := hasym _ _ hyz
              simp [this] at hxy
          · exact hy.1 z h
        · rename_i hxy
          have hxy0 : lt x y = false := by simpa using hxy
          refine List.pairwise_cons.2 ⟨?_, hp⟩
          intro z hz
          rcases List.mem_cons.1 hz with h | h
          · rw [h]; exact hxy0
          · exact htrans _ _ _ hxy0 (hy.1 z h)
    have hloop : ∀ ys done, done.Pairwise (fun a b => lt a b = false) →
        (insertionLoop lt done ys).Pairwise (fun a b => lt b a = false) := by
      intro ys
      induction ys with
      | nil =>
        intro done hd
        unfold insertionLoop
        exact List.pairwise_reverse.2 hd
      | cons y ys ih =>
        intro done hd
        unfold insertionLoop
        exact ih _ (hsink y done hd)
    exact hloop xs [] List.Pairwise.nil

/-! ## `generateReorderedStruct` -/

/-- The grouping loop of `generateReorderedStruct` (lines 119-122): the map `fieldGroups`,
as the function from the address of a declaration to its group (nil where the map has no
entry). -/
def fieldGroups (reorderedFields : List FieldInfo) : Nat → List FieldInfo :=
  reorderedFields.foldl
    (fun groups fi => Function.update groups fi.Field.addr (groups fi.Field.addr ++ [fi]))
    (fun _ => [])

/-- The declaration built at lines 134-140 for a group of one entry. -/
def wholeField (fi : FieldInfo) : Field :=
  { Doc := fi.Field.val.Doc
    Names := fi.Field.val.Names
    Type_ := fi.Field.val.Type_
    Tag := fi.Field.val.Tag
    Comment := fi.Field.val.Comment }

/-- The declaration built at lines 144-152 for one entry of a larger group. -/
def splitField (f : FieldInfo) : Field :=
  { Doc := f.Field.val.Doc
    Names := if f.Name ≠ "" then [{ NamePos := 0, Name := f.Name }] else []
    Type_ := f.Field.val.Type_
    Tag := f.Field.val.Tag
    Comment := f.Field.val.Comment }

/-- The main loop of `generateReorderedStruct` (lines 127-157), from the state
(`processed`, `newFields`) over the entries still to visit: the final `newFields`. -/
def reorderLoop (groups : Nat → List FieldInfo) :
    List FieldInfo → (Nat → Bool) → List Field → List Field
  | [], _, newFields => newFields
  | fi :: rest, processed, newFields =>
    if processed fi.Field.addr then reorderLoop groups rest processed newFields
    else
      let group := groups fi.Field.addr
      let newFields :=
        if group.length = 1 then newFields ++ [wholeField fi]
        else newFields ++ group.map splitField
      reorderLoop groups rest (Function.update processed fi.Field.addr true) newFields

/-- The function `generateReorderedStruct` of `main.go`.  The result is `none` where the Go
code dereferences the nil `original.Fields`. -/
def generateReorderedStruct (original : StructType) (reorderedFields : List FieldInfo) :
    Option StructType :=
  match original.Fields with
  | none => none
  | some fields =>
    let newFields := reorderLoop (fieldGroups reorderedFields) reorderedFields (fun _ => false) []
    some { Struct := original.Struct
           Fields := some { Opening := fields.Opening, List := newFields, Closing := fields.Closing }
           Incomplete := false }

/-! ## The main loop of `generateReorderedStruct`, unfolded -/

/-- The entries at which the main loop of `generateReorderedStruct` emits declarations:
those whose owner is not yet in `processed` when the loop reaches them. -/
def firstEntries : List FieldInfo → (Nat → Bool) → List FieldInfo
  | [], _ => []
  | fi :: rest, processed =>
    if processed fi.Field.addr then firstEntries rest processed
    else fi :: firstEntries rest (Function.update processed fi.Field.addr true)

/-- The declarations the main loop emits for the owner `owner` (lines 132-155). -/
def emittedFor (groups : Nat → List FieldInfo) (owner : FieldRef) : List Field :=
  if (groups owner.addr).length = 1 then [owner.val]
  else (groups owner.addr).map splitField

/-- The (name, type) pairs of the fields one declaration represents. -/
def declPairs (d : Field) : List (String × Expr) :=
  if d.Names.length > 0 then d.Names.map (fun name => (name.Name, d.Type_))
  else [("", d.Type_)]

/-! ## Statements of the specification -/

/-- The order of the candidate sequence in the words of the specification: the earlier entry
is at least as large as the later one, and on equal sizes its name is not after the later
name. -/
def Ordered (a b : FieldInfo) : Prop :=
  b.TypeSize ≤ a.TypeSize ∧ (a.TypeSize = b.TypeSize → a.Name ≤ b.Name)

/-- The entries of one declaration in the words of the specification: one entry per bound
name, in the order written, or one entry with the empty name when no name is bound; each
carries the declaration as owner and the size `getTypeSize` gives its type. -/
def specEntries (owner : FieldRef) : List FieldInfo :=
  match owner.val.Names with
  | [] => [{ Name := "", Field := owner, TypeSize := getTypeSize owner.val.Type_ }]
  | name :: names =>
    (name :: names).map
      (fun n => { Name := n.Name, Field := owner, TypeSize := getTypeSize owner.val.Type_ })

/-- The flattened sequence in the words of the specification: the entries of the
declarations, concatenated in declaration order. -/
def specFlatten (list : List Field) : List FieldInfo :=
  ((fieldRefs list).map specEntries).flatten

/-- The fields a declaration list represents, as (name, type) pairs in source order. -/
def fieldPairs (list : List Field) : List (String × Expr) :=
  (flattenFields (fieldRefs list)).map (fun entry => (entry.Name, entry.Field.val.Type_))

/-- A struct type with the given declarations. -/
def structOf (list : List Field) : StructType :=
  { Struct := 1, Fields := some { Opening := 8, List := list, Closing := 40 }, Incomplete := false }

/-- A declaration without documentation, tag or comment. -/
def plainField (names : List String) (type : Expr) : Field :=
  { Doc := none, Names := names.map (fun n => { NamePos := 1, Name := n }), Type_ := type,
    Tag := none, Comment := none }

/-- The declaration that binds the single name `name` and carries the type, documentation,
tag and trailing comment of `d`. -/
def singleName (d : Field) (name : String) : Field :=
  { Doc := d.Doc, Names := [{ NamePos := 0, Name := name }], Type_ := d.Type_, Tag := d.Tag,
    Comment := d.Comment }

/-- The record `x, y int32; z int64`. -/
def recordXYZ : FieldList :=
  { Opening := 8
    List := [plainField ["x", "y"] (.Ident "int32"), plainField ["z"] (.Ident "int64")]
    Closing := 40 }

/-- The record `b, a int64; ok bool`, with a documented and tagged first declaration. -/
def recordBA : FieldList :=
  { Opening := 8
    List :=
      [{ Doc := some { List := ["// counters"] }
         Names := [{ NamePos := 10, Name := "b" }, { NamePos := 13, Name := "a" }]
         Type_ := .Ident "int64"
         Tag := some { ValuePos := 22, Kind := 9, Value := "json" }
         Comment := some { List := ["// both"] } },
       plainField ["ok"] (.Ident "bool")]
    Closing := 40 }

/-- The declarations of a struct type; none when the field list is nil. -/
def declarations (structType : StructType) : List Field :=
  match structType.Fields with
  | none => []
  | some fieldList => fieldList.List

/-- What the analysis may look at in a declaration: the bound names and the type. -/
def signature (d : Field) : List String × Expr :=
  (d.Names.map (fun name => name.Name), d.Type_)

/-- The (size, name) pairs of the entries of a declaration with the given signature. -/
def signatureKeys (sig : List String × Expr) : List (Nat × String) :=
  if sig.1.length > 0 then sig.1.map (fun name => (getTypeSize sig.2, name))
  else [(getTypeSize sig.2, "")]

/-- The entries of a sequence that are the first of their owning declaration. -/
def firstOccurrences : List FieldInfo → List FieldInfo
  | [] => []
  | fi :: rest =>
    fi :: (firstOccurrences rest).filter (fun fj => decide (fj.Field.addr ≠ fi.Field.addr))

/-- The record with the single declaration `b, a int64`. -/
def recordOneDeclaration : FieldList :=
  { Opening := 8, List := [plainField ["b", "a"] (.Ident "int64")], Closing := 40 }

/-- The record `ok bool; a, b int64`. -/
def recordAdjacent : FieldList :=
  { Opening := 8
    List := [plainField ["ok"] (.Ident "bool"), plainField ["a", "b"] (.Ident "int64")]
    Closing := 40 }

/-- The record `a, c int64; b int64`. -/
def recordACB : FieldList :=
  { Opening := 8
    List := [plainField ["a", "c"] (.Ident "int64"), plainField ["b"] (.Ident "int64")]
    Closing := 40 }

/-- The record `flag bool; id int64; name string`. -/
def recordFlagIdName : FieldList :=
  { Opening := 8
    List := [plainField ["flag"] (.Ident "bool"), plainField ["id"] (.Ident "int64"),
      plainField ["name"] (.Ident "string")]
    Closing := 40 }

/-- The candidate sequence `analyzeStruct` computes for a list of more than one
declaration. -/
def candidateOf (srt : SliceSorter) (list : List Field) : List FieldInfo :=
  srt.sort less (flattenFields (fieldRefs list))

/-- The declaration list `generateReorderedStruct` builds from the candidate sequence of a
list of declarations. -/
def rebuilt (srt : SliceSorter) (list : List Field) : List Field :=
  (firstEntries (candidateOf srt list) (fun _ => false)).flatMap
    (fun fi => emittedFor (fieldGroups (candidateOf srt list)) fi.Field)

/-! ## The lint driver -/

/-- What `parser.ParseFile` and the walk of `ast.Inspect` give for one target file: a parse
error, or the struct types of its type declarations in the order the walk meets them. -/
inductive SourceFile where
  | parseError
  | parsed (structs : List StructType)

/-- How a call of `lintFile` ends: with `os.Exit(status)`, or with a return (of an error or
of nil). -/
inductive LintResult where
  | exit (status : Nat)
  | returned (err : Bool)
  deriving DecidableEq

/-- The function `lintFile` of `main.go` (lines 216-293), without its printing. -/
def lintFile (srt : SliceSorter) (file : SourceFile) : LintResult :=
  match file with
  | .parseError => .returned true
  | .parsed structs =>
    let hasIssues := structs.any (fun structType => (analyzeStruct srt structType).2)
    if !hasIssues then .exit 0 else .returned false

/-- The loop of `main` over the target files in lint mode (lines 379-394), from the state
(`hadIssues`, number of files visited): the exit status of the process and the number of
files `lintFile` was called on. -/
def lintLoop (srt : SliceSorter) : List SourceFile → Bool → Nat → Nat × Nat
  | [], hadIssues, visited => (if hadIssues then 1 else 0, visited)
  | file :: files, hadIssues, visited =>
    match lintFile srt file with
    | .exit status => (status, visited + 1)
    | .returned err => lintLoop srt files (if err then true else hadIssues) (visited + 1)

/-- The lint run of `main` on the target files. -/
def lintMain (srt : SliceSorter) (files : List SourceFile) : Nat × Nat :=
  lintLoop srt files false 0

/-- A file with the record `flag bool; id int64; name string`, which needs reordering. -/
def fileNeedsReordering : SourceFile :=
  .parsed [structOf recordFlagIdName.List]

/-- A file with the record `a int64; b int64`, which needs no reordering. -/
def fileClean : SourceFile :=
  .parsed [structOf [plainField ["a"] (.Ident "int64"), plainField ["b"] (.Ident "int64")]]

/-! ## `sort.Slice` on longer slices: pattern-defeating quicksort

The functions of `zsortfunc.go` in package `sort` that `sort.Slice` runs since Go 1.19, for
slices of fewer than fifty elements whose partitions stay balanced.  The paths through
`heapSort_func`, `breakPatterns_func`, `reverseRange_func`, the Tukey ninther of
`choosePivot_func` and the shifting of `partialInsertionSort_func` are outside the model:
where the Go code would take one of them the model returns `none`. -/

/-- The slice while `sort.Slice` sorts it: a rearrangement of the slice it was given. -/
def Slice (original : List FieldInfo) : Type :=
  { data : List FieldInfo // data.Perm original }

/-- The call `data.Less(i, j)`. -/
def sliceLess {original : List FieldInfo} (lt : FieldInfo → FieldInfo → Bool)
    (data : Slice original) (i j : Nat) : Bool :=
  match data.val[i]?, data.val[j]? with
  | some x, some y => lt x y
  | _, _ => false

/-- The call `data.Swap(i, j)`. -/
def sliceSwap {original : List FieldInfo} (data : Slice original) (i j : Nat) : Slice original :=
  match hi : data.val[i]?, hj : data.val[j]? with
  | some x, some y =>
    ⟨(data.val.set i y).set j x, by
      have hput : ∀ (ds : List FieldInfo) (k : Nat) (u v : FieldInfo),
          ds[k]? = some v → (v :: ds.set k u).Perm (u :: ds) := by
        intro ds
        induction ds with
        | nil => intro k u v h; simp at h
        | cons e es ih =>
          intro k u v h
          cases k with
          | zero =>
            simp only [List.getElem?_cons_zero, Option.some.injEq] at h
            subst h
            simpa using List.Perm.swap u e es
          | succ k =>
            simp only [List.getElem?_cons_succ] at h
            simp only [List.set_cons_succ]
            exact ((List.Perm.swap e v _).trans ((ih k u v h).cons e)).trans
              (List.Perm.swap u e es)
      have hboth : ∀ (ds : List FieldInfo) (m n : Nat) (u v : FieldInfo),
          ds[m]? = some u → ds[n]? = some v → ((ds.set m v).set n u).Perm ds := by
        intro ds
        induction ds with
        | nil => intro m n u v h; simp at h
        | cons e es ih =>
          intro m n u v hm hn
          cases m with
          | zero =>
            simp only [List.getElem?_cons_zero, Option.some.injEq] at hm
            subst hm
            cases n with
            | zero =>
              simp only [List.getElem?_cons_zero, Option.some.injEq] at hn
              subst hn
              simp
            | succ n =>
              simp only [List.getElem?_cons_succ] at hn
              simp only [List.set_cons_zero, List.set_cons_succ]
              exact hput es n e v hn
          | succ m =>
            simp only [List.getElem?_cons_succ] at hm
            cases n with
            | zero =>
              simp only [List.getElem?_cons_zero, Option.some.injEq] at hn
              subst hn
              simp only [List.set_cons_zero, List.set_cons_succ]
              exact hput es m e u hm
            | succ n =>
              simp only [List.getElem?_cons_succ] at hn
              simp only [List.set_cons_succ]
              exact (ih m n u v hm hn).cons e
      exact (hboth data.val i j x y hi hj).trans data.property⟩
  | _, _ => data

/-- The call `insertionSort_func(data, a, b)`: insertion sort of `data[a:b]`. -/
def insertionSortRange {original : List FieldInfo} (lt : FieldInfo → FieldInfo → Bool)
    (data : Slice original) (a b : Nat) : Slice original :=
  ⟨data.val.take a ++ insertionSort_func lt ((data.val.drop a).take (b - a)) ++
      (data.val.drop a).drop (b - a), by
    have h1 := insertionSorter.perm lt ((data.val.drop a).take (b - a))
    have h2 : (data.val.take a ++ insertionSort_func lt ((data.val.drop a).take (b - a)) ++
        (data.val.drop a).drop (b - a)).Perm
        (data.val.take a ++ (data.val.drop a).take (b - a) ++ (data.val.drop a).drop (b - a)) :=
      (h1.append_left _).append_right _
    have h3 : data.val.take a ++ (data.val.drop a).take (b - a) ++
        (data.val.drop a).drop (b - a) = data.val := by
      rw [List.append_assoc, List.take_append_drop, List.take_append_drop]
    rw [h3] at h2
    exact h2.trans data.property⟩

/-- The type `sortedHint` of package `sort`. -/
inductive SortedHint where
  | unknownHint
  | increasingHint
  | decreasingHint
  deriving DecidableEq

/-- The function `order2_func`: the two indices in order, and the count of swaps. -/
def order2_func {original : List FieldInfo} (lt : FieldInfo → FieldInfo → Bool)
    (data : Slice original) (a b swaps : Nat) : Nat × Nat × Nat :=
  if sliceLess lt data b a then (b, a, swaps + 1) else (a, b, swaps)

/-- The function `median_func`: the index of the median of three, and the count of swaps. -/
def median_func {original : List FieldInfo} (lt : FieldInfo → FieldInfo → Bool)
    (data : Slice original) (a b c swaps : Nat) : Nat × Nat :=
  let r1 := order2_func lt data a b swaps
  let r2 := order2_func lt data r1.2.1 c r1.2.2
  let r3 := order2_func lt data r1.1 r2.1 r2.2.2
  (r3.2.1, r3.2.2)

/-- The function `choosePivot_func` on fewer than fifty elements (`shortestNinther`). -/
def choosePivot_func {original : List FieldInfo} (lt : FieldInfo → FieldInfo → Bool)
    (data : Slice original) (a b : Nat) : Nat × SortedHint :=
  let l := b - a
  let i := a + l / 4 * 1
  let j := a + l / 4 * 2
  let k := a + l / 4 * 3
  let r := if l ≥ 8 then median_func lt data i j k 0 else (j, 0)
  if r.2 = 0 then (r.1, .increasingHint)
  else if r.2 = 4 * 3 then (r.1, .decreasingHint)
  else (r.1, .unknownHint)

/-- A loop `for i <= j && cond(i) { i++ }`: the final `i`.  The loop makes at most
`j + 1 - i` steps, which every call below covers with its fuel. -/
def scanUp (cond : Nat → Bool) (j : Nat) : Nat → Nat → Nat
  | 0, i => i
  | fuel + 1, i => if i ≤ j ∧ cond i = true then scanUp cond j fuel (i + 1) else i

/-- A loop `for i <= j && cond(j) { j-- }`: the final `j`.  The loop makes at most
`j + 1 - i` steps, which every call below covers with its fuel. -/
def scanDown (cond : Nat → Bool) (i : Nat) : Nat → Nat → Nat
  | 0, j => j
  | fuel + 1, j => if i ≤ j ∧ cond j = true then scanDown cond i fuel (j - 1) else j

/-- The function `partialInsertionSort_func` on fewer than fifty elements
(`shortestShifting`): it reports whether `data[a:b]` is ordered and moves nothing. -/
def partialInsertionSort_func {original : List FieldInfo} (lt : FieldInfo → FieldInfo → Bool)
    (data : Slice original) (a b : Nat) : Bool :=
  let i := scanUp (fun i => !sliceLess lt data i (i - 1)) (b - 1) (b - a) (a + 1)
  decide (i = b)

/-- The endless loop of `partition_func`: the slice and the final `j`.  Every pass that
does not leave the loop brings `i` and `j` closer by two, so `b - a` passes are enough. -/
def partitionLoop {original : List FieldInfo} (lt : FieldInfo → FieldInfo → Bool) (a : Nat) :
    Nat → Slice original → Nat → Nat → Slice original × Nat
  | 0, data, _, j => (data, j)
  | fuel + 1, data, i, j =>
    let i := scanUp (fun i => sliceLess lt data i a) j (fuel + 1) i
    let j := scanDown (fun j => !sliceLess lt data j a) i (fuel + 1) j
    if i > j then (data, j)
    else partitionLoop lt a fuel (sliceSwap data i j) (i + 1) (j - 1)

/-- The function `partition_func`: the slice, the new index of the pivot, and whether the
slice was already partitioned. -/
def partition_func {original : List FieldInfo} (lt : FieldInfo → FieldInfo → Bool)
    (data : Slice original) (a b pivot : Nat) : Slice original × Nat × Bool :=
  let data := sliceSwap data a pivot
  let i := scanUp (fun i => sliceLess lt data i a) (b - 1) (b - a) (a + 1)
  let j := scanDown (fun j => !sliceLess lt data j a) i (b - a) (b - 1)
  if i > j then (sliceSwap data j a, j, true)
  else
    let r := partitionLoop lt a (b - a) (sliceSwap data i j) (i + 1) (j - 1)
    (sliceSwap r.1 r.2 a, r.2, false)

/-- The loop of `partitionEqual_func`: the slice and the final `i`. -/
def partitionEqualLoop {original : List FieldInfo} (lt : FieldInfo → FieldInfo → Bool) (a : Nat) :
    Nat → Slice original → Nat → Nat → Slice original × Nat
  | 0, data, i, _ => (data, i)
  | fuel + 1, data, i, j =>
    let i := scanUp (fun i => !sliceLess lt data a i) j (fuel + 1) i
    let j := scanDown (fun j => sliceLess lt data a j) i (fuel + 1) j
    if i > j then (data, i)
    else partitionEqualLoop lt a fuel (sliceSwap data i j) (i + 1) (j - 1)

/-- The function `partitionEqual_func`: the slice and the new start of the range. -/
def partitionEqual_func {original : List FieldInfo} (lt : FieldInfo → FieldInfo → Bool)
    (data : Slice original) (a b pivot : Nat) : Slice original × Nat :=
  partitionEqualLoop lt a (b - a) (sliceSwap data a pivot) (a + 1) (b - 1)

/-- The function `bits.Len`: the number of bits of `n`. -/
def bitsLen : Nat → Nat → Nat
  | 0, _ => 0
  | fuel + 1, n => if n = 0 then 0 else bitsLen fuel (n / 2) + 1

/-- The loop of `pdqsort_func` from the state (`data`, `a`, `b`, `limit`, `wasBalanced`,
`wasPartitioned`); a recursive call starts the loop afresh on its range.  The result is
`none` on a path outside the model, or when `fuel` (at least `b - a + 1` is enough) runs
out. -/
def pdqsort_func {original : List FieldInfo} (lt : FieldInfo → FieldInfo → Bool) :
    Nat → Slice original → Nat → Nat → Nat → Bool → Bool → Option (Slice original)
  | 0, _, _, _, _, _, _ => none
  | fuel + 1, data, a, b, limit, wasBalanced, wasPartitioned =>
    let length := b - a
    if length ≤ 12 then some (insertionSortRange lt data a b)
    else if limit = 0 then none
    else if !wasBalanced then none
    else if length ≥ 50 then none
    else
      let pivotHint := choosePivot_func lt data a b
      let pivot := pivotHint.1
      let hint := pivotHint.2
      if hint = .decreasingHint then none
      else if wasBalanced && wasPartitioned && decide (hint = .increasingHint)
          && partialInsertionSort_func lt data a b then some data
      else if a > 0 ∧ sliceLess lt data (a - 1) pivot = false then
        let r := partitionEqual_func lt data a b pivot
        pdqsort_func lt fuel r.1 r.2 b limit wasBalanced wasPartitioned
      else
        let r := partition_func lt data a b pivot
        let mid := r.2.1
        let alreadyPartitioned := r.2.2
        let leftLen := mid - a
        let rightLen := b - mid
        let balanceThreshold := length / 8
        if leftLen < rightLen then
          match pdqsort_func lt fuel r.1 a mid limit true true with
          | none => none
          | some sorted =>
            pdqsort_func lt fuel sorted (mid + 1) b limit (decide (leftLen ≥ balanceThreshold))
              alreadyPartitioned
        else
          match pdqsort_func lt fuel r.1 (mid + 1) b limit true true with
          | none => none
          | some sorted =>
            pdqsort_func lt fuel sorted a mid limit (decide (rightLen ≥ balanceThreshold))
              alreadyPartitioned

/-- The function `sort.Slice` of Go 1.19 and later, as far as the model of `pdqsort_func`
goes: the slice it leaves, or `none` where the Go code takes a path outside the model. -/
def pdqsortSlice (lt : FieldInfo → FieldInfo → Bool) (xs : List FieldInfo) :
    Option (Slice xs) :=
  pdqsort_func lt (xs.length + 1) ⟨xs, List.Perm.refl xs⟩ 0 xs.length (bitsLen xs.length xs.length)
    true true

/-- A record of thirteen fields: the embedded `int32`, four strings, the embedded `uint32`,
an `int64` and six booleans. -/
def recordThirteen : FieldList :=
  { Opening := 8
    List :=
      [plainField [] (.Ident "int32"), plainField ["s1"] (.Ident "string"),
        plainField ["s2"] (.Ident "string"), plainField ["s3"] (.Ident "string"),
        plainField ["s4"] (.Ident "string"), plainField [] (.Ident "uint32"),
        plainField ["p"] (.Ident "int64"), plainField ["b1"] (.Ident "bool"),
        plainField ["b2"] (.Ident "bool"), plainField ["b3"] (.Ident "bool"),
        plainField ["b4"] (.Ident "bool"), plainField ["b5"] (.Ident "bool"),
        plainField ["b6"] (.Ident "bool")]
    Closing := 40 }

/-- The owners of the entries with the given size and name, in the order of the sequence. -/
def tiedOwners (entries : List FieldInfo) (size : Nat) (name : String) : List Nat :=
  (entries.filter (fun e => decide (e.TypeSize = size ∧ e.Name = name))).map
    (fun e => e.Field.addr)

/-! ## `getTypeSize`: the size table -/

/-- C5: on an identifier, `getTypeSize` returns 1 for bool, int8, uint8 and byte, 2 for int16
and uint16, 4 for int32, uint32, rune and float32, 8 for int64, uint64, float64, complex64,
int, uint and uintptr, and 16 for complex128 and string. -/
theorem getTypeSize_basic :
    getTypeSize (.Ident "bool") = 1 ∧ getTypeSize (.Ident "int8") = 1 ∧
    getTypeSize (.Ident "uint8") = 1 ∧ getTypeSize (.Ident "byte") = 1 ∧
    getTypeSize (.Ident "int16") = 2 ∧ getTypeSize (.Ident "uint16") = 2 ∧
    getTypeSize (.Ident "int32") = 4 ∧ getTypeSize (.Ident "uint32") = 4 ∧
    getTypeSize (.Ident "rune") = 4 ∧ getTypeSize (.Ident "float32") = 4 ∧
    getTypeSize (.Ident "int64") = 8 ∧ getTypeSize (.Ident "uint64") = 8 ∧
    getTypeSize (.Ident "float64") = 8 ∧ getTypeSize (.Ident "complex64") = 8 ∧
    getTypeSize (.Ident "int") = 8 ∧ getTypeSize (.Ident "uint") = 8 ∧
    getTypeSize (.Ident "uintptr") = 8 ∧ getTypeSize (.Ident "complex128") = 16 ∧
    getTypeSize (.Ident "string") = 16 := by
  decide

/-- C6: `getTypeSize` returns 8 for every pointer type, 24 for an array type without length
(a slice), 8 for an array type with a length whatever the length and the element type, 8 for
every map type, 8 for every channel type, 16 for every interface type literal and 8 for every
function type; so `[1000]int64` and `[1]bool` both give 8. -/
theorem getTypeSize_structured :
    (∀ x, getTypeSize (.StarExpr x) = 8) ∧
    (∀ elt, getTypeSize (.ArrayType none elt) = 24) ∧
    (∀ len elt, getTypeSize (.ArrayType (some len) elt) = 8) ∧
    (∀ key value, getTypeSize (.MapType key value) = 8) ∧
    (∀ dir value, getTypeSize (.ChanType dir value) = 8) ∧
    (∀ methods, getTypeSize (.InterfaceType methods) = 16) ∧
    (∀ params results, getTypeSize (.FuncType params results) = 8) ∧
    getTypeSize (.ArrayType (some (.BasicLit "1000")) (.Ident "int64")) = 8 ∧
    getTypeSize (.ArrayType (some (.BasicLit "1")) (.Ident "bool")) = 8 :=
  ⟨fun _ => rfl, fun _ => rfl, fun _ _ => rfl, fun _ _ => rfl, fun _ _ => rfl, fun _ => rfl,
    fun _ _ => rfl, rfl, rfl⟩

/-- C7: `getTypeSize` is a total function; on every type expression without a case of its
own (neither a listed basic-type identifier nor a pointer, array, map, channel, interface or
function type) it returns the fallback 8, and every result is one of 1, 2, 4, 8, 16, 24. -/
theorem getTypeSize_fallback (expr : Expr) :
    (hasOwnCase expr = false → getTypeSize expr = 8) ∧
    getTypeSize expr ∈ [1, 2, 4, 8, 16, 24] := by
  cases expr with
  | Ident name =>
    constructor
    · intro h
      simp only [hasOwnCase, basicTypeNames, List.mem_cons, List.mem_singleton,
        decide_eq_false_iff_not, not_or, List.not_mem_nil, or_false] at h
      simp [getTypeSize, h]
    · unfold getTypeSize
      simp only
      split_ifs <;> simp
  | ArrayType len elt =>
    cases len <;> simp [getTypeSize, hasOwnCase]
  | _ => simp [getTypeSize, hasOwnCase]

/-- C7 at a user type, a qualified name, an inline struct type, a parenthesised type and an
instantiated generic type. -/
theorem getTypeSize_fallback_witness :
    hasOwnCase (.Ident "Config") = false ∧ getTypeSize (.Ident "Config") = 8 ∧
    getTypeSize (.SelectorExpr (.Ident "time") "Duration") = 8 ∧
    getTypeSize (.StructType [(["x"], .Ident "int32")]) = 8 ∧
    getTypeSize (.ParenExpr (.Ident "bool")) = 8 ∧
    getTypeSize (.IndexExpr (.Ident "List") (.Ident "string")) = 8 :=
  ⟨by decide, (getTypeSize_fallback (.Ident "Config")).1 (by decide),
    (getTypeSize_fallback _).1 (by decide), (getTypeSize_fallback _).1 (by decide),
    (getTypeSize_fallback _).1 (by decide), (getTypeSize_fallback _).1 (by decide)⟩

/-! ## `analyzeStruct`: the candidate sequence and the verdict -/

theorem less_iff (a b : FieldInfo) :
    less a b = true ↔
      b.TypeSize < a.TypeSize ∨ (a.TypeSize = b.TypeSize ∧ a.Name < b.Name) := by
  unfold less
  by_cases h : a.TypeSize = b.TypeSize
  · simp [h, String.lt_iff_toList_lt]
  · simp only [ne_eq, h, not_false_eq_true, if_true, gt_iff_lt, decide_eq_true_eq, false_and,
      or_false]

theorem less_eq_false_iff (a b : FieldInfo) : less b a = false ↔ Ordered a b := by
  rw [← Bool.not_eq_true, less_iff]
  unfold Ordered
  constructor
  · intro h
    push_neg at h
    refine ⟨h.1, fun he => ?_⟩
    exact not_lt.1 (fun hlt => h.2 he.symm hlt)
  · rintro ⟨h1, h2⟩ (h | ⟨he, hlt⟩)
    · omega
    · exact absurd hlt (not_lt.2 (h2 he.symm))

theorem less_asymm (a b : FieldInfo) (h : less a b = true) : less b a = false := by
  rw [less_iff] at h
  rw [← Bool.not_eq_true, less_iff]
  rintro (h' | ⟨he, hlt⟩)
  · rcases h with h | ⟨he, _⟩ <;> omega
  · rcases h with h | ⟨_, hlt'⟩
    · omega
    · exact lt_asymm hlt hlt'

theorem ordered_trans (a b c : FieldInfo) (hab : Ordered a b) (hbc : Ordered b c) :
    Ordered a c := by
  unfold Ordered at *
  refine ⟨le_trans hbc.1 hab.1, fun he => ?_⟩
  have h1 : a.TypeSize = b.TypeSize := by omega
  have h2 : b.TypeSize = c.TypeSize := by omega
  exact le_trans (hab.2 h1) (hbc.2 h2)

theorem less_negtrans (a b c : FieldInfo) (hab : less a b = false) (hbc : less b c = false) :
    less a c = false := by
  rw [less_eq_false_iff] at *
  exact ordered_trans _ _ _ hbc hab

theorem sort_perm (srt : SliceSorter) (fields : List FieldInfo) :
    (srt.sort less fields).Perm fields :=
  srt.perm less fields

theorem sort_pairwise (srt : SliceSorter) (fields : List FieldInfo) :
    (srt.sort less fields).Pairwise Ordered := by
  have h := srt.sorted less fields less_asymm less_negtrans
  exact h.imp (fun {a b} hab => (less_eq_false_iff a b).1 hab)

theorem analyzeStruct_eq (srt : SliceSorter) (structType : StructType) (fieldList : FieldList)
    (hf : structType.Fields = some fieldList) (hlen : 1 < fieldList.List.length) :
    analyzeStruct srt structType =
      (srt.sort less (flattenFields (fieldRefs fieldList.List)),
        needsReordering (flattenFields (fieldRefs fieldList.List))
          (srt.sort less (flattenFields (fieldRefs fieldList.List)))) := by
  unfold analyzeStruct
  rw [hf]
  simp only
  rw [if_neg (by omega)]

theorem chain_ordered_iff (fields : List FieldInfo) :
    fields.Chain' Ordered ↔ fields.Pairwise Ordered := by
  haveI : IsTrans FieldInfo Ordered := ⟨ordered_trans⟩
  exact List.chain'_iff_pairwise

theorem needsReordering_iff (fields sortedFields : List FieldInfo) :
    needsReordering fields sortedFields = true ↔
      ∃ i, ∃ (h₁ : i < fields.length) (h₂ : i < sortedFields.length),
        (fields[i].TypeSize, fields[i].Name) ≠ (sortedFields[i].TypeSize, sortedFields[i].Name) := by
  induction fields generalizing sortedFields with
  | nil => simp [needsReordering]
  | cons f fs ih =>
    cases sortedFields with
    | nil => simp [needsReordering]
    | cons g gs =>
      unfold needsReordering
      by_cases h : f.TypeSize ≠ g.TypeSize ∨ f.Name ≠ g.Name
      · rw [if_pos h]
        refine iff_of_true rfl ⟨0, by simp, by simp, ?_⟩
        simp only [List.getElem_cons_zero, ne_eq, Prod.mk.injEq, not_and_or]
        exact h
      · rw [if_neg h, ih gs]
        have h' : f.TypeSize = g.TypeSize ∧ f.Name = g.Name := by
          constructor
          · by_contra hc; exact h (Or.inl hc)
          · by_contra hc; exact h (Or.inr hc)
        constructor
        · rintro ⟨i, h₁, h₂, hne⟩
          exact ⟨i + 1, by simpa using h₁, by simpa using h₂, by simpa using hne⟩
        · rintro ⟨i, h₁, h₂, hne⟩
          cases i with
          | zero => simp [h'.1, h'.2] at hne
          | succ j =>
            exact ⟨j, by simpa using h₁, by simpa using h₂, by simpa using hne⟩

theorem needsReordering_eq_false_iff (fields sortedFields : List FieldInfo)
    (hlen : fields.length = sortedFields.length) :
    needsReordering fields sortedFields = false ↔
      fields.map (fun e => (e.TypeSize, e.Name)) =
        sortedFields.map (fun e => (e.TypeSize, e.Name)) := by
  induction fields generalizing sortedFields with
  | nil =>
    cases sortedFields with
    | nil => simp [needsReordering]
    | cons g gs => simp at hlen
  | cons f fs ih =>
    cases sortedFields with
    | nil => simp at hlen
    | cons g gs =>
      have hlen' : fs.length = gs.length := by simpa using hlen
      unfold needsReordering
      by_cases h : f.TypeSize ≠ g.TypeSize ∨ f.Name ≠ g.Name
      · rw [if_pos h]
        simp only [List.map_cons, List.cons.injEq, Prod.mk.injEq, Bool.true_eq_false, false_iff,
          not_and]
        intro hk
        rcases h with h | h
        · exact absurd hk.1 h
        · exact absurd hk.2 h
      · rw [if_neg h, ih gs hlen']
        have h' : f.TypeSize = g.TypeSize ∧ f.Name = g.Name := by
          constructor
          · by_contra hc; exact h (Or.inl hc)
          · by_contra hc; exact h (Or.inr hc)
        simp [h'.1, h'.2]

theorem pairwise_ordered_iff_keys (fields sortedFields : List FieldInfo)
    (hperm : sortedFields.Perm fields) (hsorted : sortedFields.Pairwise Ordered) :
    fields.Pairwise Ordered ↔
      fields.map (fun e => (e.TypeSize, e.Name)) =
        sortedFields.map (fun e => (e.TypeSize, e.Name)) := by
  let r : ℕ × String → ℕ × String → Prop := fun p q => q.1 ≤ p.1 ∧ (p.1 = q.1 → p.2 ≤ q.2)
  have hmap : ∀ l : List FieldInfo,
      l.Pairwise Ordered ↔ (l.map (fun e => (e.TypeSize, e.Name))).Pairwise r := by
    intro l
    rw [List.pairwise_map]
    rfl
  haveI : IsAntisymm (ℕ × String) r := by
    refine ⟨fun p q hpq hqp => ?_⟩
    have h1 : p.1 = q.1 := le_antisymm hqp.1 hpq.1
    exact Prod.ext h1 (le_antisymm (hpq.2 h1) (hqp.2 h1.symm))
  constructor
  · intro hf
    exact List.eq_of_perm_of_sorted (hperm.symm.map _) ((hmap _).1 hf) ((hmap _).1 hsorted)
  · intro he
    rw [hmap, he]
    exact (hmap _).1 hsorted

/-- C1: for a record with more than one declaration, the verdict of `analyzeStruct` is
"needs reordering" exactly when the flattened sequence is not ordered by size descending
with ties broken by name ascending, and exactly when the flattened sequence and the
candidate differ on the pair (size, name) at some position. -/
theorem analyzeStruct_verdict_iff (srt : SliceSorter) (structType : StructType)
    (fieldList : FieldList) (hf : structType.Fields = some fieldList)
    (hlen : 1 < fieldList.List.length) :
    ((analyzeStruct srt structType).2 = true ↔
      ¬ (flattenFields (fieldRefs fieldList.List)).Chain' Ordered) ∧
    ((analyzeStruct srt structType).2 = true ↔
      ∃ i, ∃ (h₁ : i < (flattenFields (fieldRefs fieldList.List)).length)
        (h₂ : i < (analyzeStruct srt structType).1.length),
        ((flattenFields (fieldRefs fieldList.List))[i].TypeSize,
            (flattenFields (fieldRefs fieldList.List))[i].Name) ≠
          (((analyzeStruct srt structType).1)[i].TypeSize,
            ((analyzeStruct srt structType).1)[i].Name)) := by
  rw [analyzeStruct_eq srt structType fieldList hf hlen]
  refine ⟨?_, needsReordering_iff _ _⟩
  rw [chain_ordered_iff,
    pairwise_ordered_iff_keys _ _ (sort_perm srt _) (sort_pairwise srt _),
    ← needsReordering_eq_false_iff _ _ (sort_perm srt _).length_eq.symm]
  simp

/-- C1 at the record `a int64; b int64`: the verdict is "no reordering needed" and the
flattened sequence is ordered. -/
theorem analyzeStruct_verdict_iff_witness :
    (analyzeStruct insertionSorter
        (structOf [plainField ["a"] (.Ident "int64"), plainField ["b"] (.Ident "int64")])).2
      = false ∧
    (flattenFields (fieldRefs
        [plainField ["a"] (.Ident "int64"), plainField ["b"] (.Ident "int64")])).Chain' Ordered := by
  have h := (analyzeStruct_verdict_iff insertionSorter
    (structOf [plainField ["a"] (.Ident "int64"), plainField ["b"] (.Ident "int64")])
    _ rfl (by decide)).1
  have hv : (analyzeStruct insertionSorter
      (structOf [plainField ["a"] (.Ident "int64"), plainField ["b"] (.Ident "int64")])).2
      = false := by decide
  refine ⟨hv, ?_⟩
  by_contra hc
  rw [h.2 hc] at hv
  exact absurd hv (by decide)

theorem string_le_empty (name : String) (h : name ≤ "") : name = "" := by
  rw [String.le_iff_toList_le] at h
  apply String.toList_inj.1
  cases hn : name.toList with
  | nil => rfl
  | cons c cs =>
    rw [hn] at h
    exact absurd (List.nil_lt_cons c cs) (not_lt.2 h)

/-- C2: for a record with more than one declaration, the candidate sequence of
`analyzeStruct` is sorted: of two adjacent entries the earlier is at least as large as the
later and, on equal sizes, its name is not after the later name; so an entry with the empty
name stands before every named entry of the same size. -/
theorem analyzeStruct_candidate_sorted (srt : SliceSorter) (structType : StructType)
    (fieldList : FieldList) (hf : structType.Fields = some fieldList)
    (hlen : 1 < fieldList.List.length) :
    (analyzeStruct srt structType).1.Chain' Ordered ∧
    ∀ i j, ∀ (hi : i < (analyzeStruct srt structType).1.length)
      (hj : j < (analyzeStruct srt structType).1.length),
      ((analyzeStruct srt structType).1)[i].Name = "" →
      ((analyzeStruct srt structType).1)[j].Name ≠ "" →
      ((analyzeStruct srt structType).1)[i].TypeSize =
        ((analyzeStruct srt structType).1)[j].TypeSize →
      i < j := by
  rw [analyzeStruct_eq srt structType fieldList hf hlen]
  have hp := sort_pairwise srt (flattenFields (fieldRefs fieldList.List))
  refine ⟨(chain_ordered_iff _).2 hp, ?_⟩
  intro i j hi hj hemp hnamed hsize
  by_contra hij
  have hne : j ≠ i := by
    rintro rfl
    exact hnamed hemp
  have hlt : j < i := by omega
  have hord := List.pairwise_iff_getElem.1 hp j i hj hi hlt
  have hle := hord.2 hsize.symm
  simp only at hemp
  rw [hemp] at hle
  exact hnamed (string_le_empty _ hle)

/-- C2 at the record with an embedded `*Base` and the field `id int64`: the candidate is
sorted and keeps the embedded entry first. -/
theorem analyzeStruct_candidate_sorted_witness :
    (analyzeStruct insertionSorter (structOf
        [plainField [] (.StarExpr (.Ident "Base")), plainField ["id"] (.Ident "int64")])).1.Chain'
      Ordered ∧
    (analyzeStruct insertionSorter (structOf
        [plainField [] (.StarExpr (.Ident "Base")), plainField ["id"] (.Ident "int64")])).1.map
      (fun e => e.Name) = ["", "id"] :=
  ⟨(analyzeStruct_candidate_sorted insertionSorter
      (structOf [plainField [] (.StarExpr (.Ident "Base")), plainField ["id"] (.Ident "int64")])
      _ rfl (by decide)).1, by decide⟩

theorem fieldInfos_eq_specEntries (owner : FieldRef) : fieldInfos owner = specEntries owner := by
  unfold fieldInfos specEntries
  cases h : owner.val.Names with
  | nil => simp
  | cons name names => simp

theorem fieldInfos_length (owner : FieldRef) :
    (fieldInfos owner).length = max 1 owner.val.Names.length := by
  unfold fieldInfos
  cases h : owner.val.Names with
  | nil => simp
  | cons name names => simp

theorem flattenFields_eq_specFlatten (list : List Field) :
    flattenFields (fieldRefs list) = specFlatten list := by
  unfold flattenFields specFlatten
  rw [List.flatMap_def]
  congr 1
  exact List.map_congr_left (fun owner _ => fieldInfos_eq_specEntries owner)

theorem flattenFields_length_from (n : Nat) (list : List Field) :
    (flattenFields (fieldRefsFrom n list)).length =
      (list.map (fun d => max 1 d.Names.length)).sum := by
  induction list generalizing n with
  | nil => rfl
  | cons d ds ih =>
    have := ih (n + 1)
    simp only [flattenFields] at this
    simp [flattenFields, fieldRefsFrom, List.flatMap_cons, fieldInfos_length, this]

theorem length_le_flattenFields_length (list : List Field) :
    list.length ≤ (flattenFields (fieldRefs list)).length := by
  unfold fieldRefs
  rw [flattenFields_length_from]
  induction list with
  | nil => simp
  | cons d ds ih =>
    simp only [List.length_cons, List.map_cons, List.sum_cons]
    have : 1 ≤ max 1 d.Names.length := le_max_left _ _
    omega

/-- C3: for a record with more than one declaration, the candidate sequence of
`analyzeStruct` is a permutation of the flattened sequence, which is the concatenation in
declaration order of one entry per bound name (owner and `getTypeSize` of the type attached)
or of one entry with the empty name for a declaration binding no name; its length is the sum
over the declarations of max(1, number of names). -/
theorem analyzeStruct_candidate_perm (srt : SliceSorter) (structType : StructType)
    (fieldList : FieldList) (hf : structType.Fields = some fieldList)
    (hlen : 1 < fieldList.List.length) :
    (analyzeStruct srt structType).1.Perm (specFlatten fieldList.List) ∧
    flattenFields (fieldRefs fieldList.List) = specFlatten fieldList.List ∧
    (analyzeStruct srt structType).1.length =
      (fieldList.List.map (fun d => max 1 d.Names.length)).sum := by
  rw [analyzeStruct_eq srt structType fieldList hf hlen]
  have hp := sort_perm srt (flattenFields (fieldRefs fieldList.List))
  refine ⟨?_, flattenFields_eq_specFlatten _, ?_⟩
  · rw [← flattenFields_eq_specFlatten]
    exact hp
  · rw [hp.length_eq]
    exact flattenFields_length_from 0 _

/-- C3 at the record `x, y int32; z int64`: three entries, a permutation of x, y, z. -/
theorem analyzeStruct_candidate_perm_witness :
    (analyzeStruct insertionSorter (structOf
        [plainField ["x", "y"] (.Ident "int32"), plainField ["z"] (.Ident "int64")])).1.Perm
      (specFlatten [plainField ["x", "y"] (.Ident "int32"), plainField ["z"] (.Ident "int64")]) ∧
    (specFlatten [plainField ["x", "y"] (.Ident "int32"), plainField ["z"] (.Ident "int64")]).map
      (fun e => (e.Name, e.TypeSize, e.Field.addr)) = [("x", 4, 0), ("y", 4, 0), ("z", 8, 1)] :=
  ⟨(analyzeStruct_candidate_perm insertionSorter
      (structOf [plainField ["x", "y"] (.Ident "int32"), plainField ["z"] (.Ident "int64")])
      _ rfl (by decide)).1, by decide⟩

/-- C4: for a record whose field list is absent or holds at most one declaration, and hence
for every record with at most one flattened entry, `analyzeStruct` returns the empty
candidate sequence and the verdict "no reordering needed". -/
theorem analyzeStruct_skip (srt : SliceSorter) (structType : StructType)
    (h : ∀ fieldList, structType.Fields = some fieldList →
      fieldList.List.length ≤ 1 ∨ (flattenFields (fieldRefs fieldList.List)).length ≤ 1) :
    analyzeStruct srt structType = ([], false) := by
  unfold analyzeStruct
  cases hf : structType.Fields with
  | none => rfl
  | some fieldList =>
    have hle : fieldList.List.length ≤ 1 := by
      rcases h fieldList hf with h1 | h1
      · exact h1
      · exact le_trans (length_le_flattenFields_length _) h1
    simp only
    rw [if_pos hle]

/-- C4 at the record with the single field `x int32` and at a record without field list. -/
theorem analyzeStruct_skip_witness :
    analyzeStruct insertionSorter (structOf [plainField ["x"] (.Ident "int32")]) = ([], false) ∧
    analyzeStruct insertionSorter { Struct := 1, Fields := none, Incomplete := false }
      = ([], false) :=
  ⟨analyzeStruct_skip insertionSorter (structOf [plainField ["x"] (.Ident "int32")])
      (fun fieldList hfl => by
        have he := Option.some.inj hfl
        rw [← he]
        exact Or.inl (by decide)),
    analyzeStruct_skip insertionSorter { Struct := 1, Fields := none, Incomplete := false }
      (fun fieldList hfl => by simp at hfl)⟩

/-! ## `generateReorderedStruct`: the reconstruction -/

theorem fieldGroups_foldl (reorderedFields : List FieldInfo) (groups : Nat → List FieldInfo)
    (a : Nat) :
    (reorderedFields.foldl
        (fun (g : Nat → List FieldInfo) (fi : FieldInfo) =>
          Function.update g fi.Field.addr (g fi.Field.addr ++ [fi]))
        groups) a =
      groups a ++ reorderedFields.filter (fun fi => decide (fi.Field.addr = a)) := by
  induction reorderedFields generalizing groups with
  | nil => simp
  | cons x xs ih =>
    rw [List.foldl_cons, ih]
    by_cases h : x.Field.addr = a
    · subst h
      simp [List.filter_cons]
    · have h' : a ≠ x.Field.addr := fun e => h e.symm
      simp [List.filter_cons, h, Function.update_noteq h']

theorem fieldGroups_eq (reorderedFields : List FieldInfo) (a : Nat) :
    fieldGroups reorderedFields a =
      reorderedFields.filter (fun fi => decide (fi.Field.addr = a)) := by
  unfold fieldGroups
  rw [fieldGroups_foldl]
  rfl

theorem wholeField_eq (fi : FieldInfo) : wholeField fi = fi.Field.val := rfl

theorem reorderLoop_eq (groups : Nat → List FieldInfo) (reorderedFields : List FieldInfo)
    (processed : Nat → Bool) (newFields : List Field) :
    reorderLoop groups reorderedFields processed newFields =
      newFields ++
        (firstEntries reorderedFields processed).flatMap (fun fi => emittedFor groups fi.Field) := by
  induction reorderedFields generalizing processed newFields with
  | nil => simp [reorderLoop, firstEntries]
  | cons fi rest ih =>
    unfold reorderLoop firstEntries
    by_cases hp : processed fi.Field.addr = true
    · rw [if_pos hp, if_pos hp]
      exact ih _ _
    · rw [if_neg hp, if_neg hp]
      simp only
      rw [ih, List.flatMap_cons]
      unfold emittedFor
      by_cases hg : (groups fi.Field.addr).length = 1
      · simp [hg, wholeField_eq]
      · simp [hg]

theorem firstEntries_mem (reorderedFields : List FieldInfo) (processed : Nat → Bool)
    (fi : FieldInfo) (h : fi ∈ firstEntries reorderedFields processed) :
    fi ∈ reorderedFields ∧ processed fi.Field.addr = false := by
  induction reorderedFields generalizing processed with
  | nil => simp [firstEntries] at h
  | cons x rest ih =>
    unfold firstEntries at h
    by_cases hp : processed x.Field.addr = true
    · rw [if_pos hp] at h
      exact ⟨List.mem_cons_of_mem _ (ih _ h).1, (ih _ h).2⟩
    · rw [if_neg hp] at h
      rcases List.mem_cons.1 h with h | h
      · subst h
        exact ⟨List.mem_cons_self _ _, by simpa using hp⟩
      · have := ih _ h
        refine ⟨List.mem_cons_of_mem _ this.1, ?_⟩
        have h2 := this.2
        by_cases he : fi.Field.addr = x.Field.addr
        · rw [he, Function.update_same] at h2
          exact absurd h2 (by simp)
        · rwa [Function.update_noteq he] at h2

theorem firstEntries_nodup (reorderedFields : List FieldInfo) (processed : Nat → Bool) :
    ((firstEntries reorderedFields processed).map (fun fi => fi.Field.addr)).Nodup := by
  induction reorderedFields generalizing processed with
  | nil => simp [firstEntries]
  | cons x rest ih =>
    unfold firstEntries
    by_cases hp : processed x.Field.addr = true
    · rw [if_pos hp]
      exact ih _
    · rw [if_neg hp, List.map_cons, List.nodup_cons]
      refine ⟨?_, ih _⟩
      intro hmem
      obtain ⟨fj, hfj, he⟩ := List.mem_map.1 hmem
      have := (firstEntries_mem _ _ fj hfj).2
      rw [he, Function.update_same] at this
      exact absurd this (by simp)

theorem firstEntries_cover (reorderedFields : List FieldInfo) (processed : Nat → Bool)
    (fi : FieldInfo) (h : fi ∈ reorderedFields) (hp : processed fi.Field.addr = false) :
    ∃ fj ∈ firstEntries reorderedFields processed, fj.Field.addr = fi.Field.addr := by
  induction reorderedFields generalizing processed with
  | nil => simp at h
  | cons x rest ih =>
    unfold firstEntries
    by_cases hx : processed x.Field.addr = true
    · rw [if_pos hx]
      rcases List.mem_cons.1 h with h | h
      · subst h
        rw [hp] at hx
        exact absurd hx (by simp)
      · exact ih _ h hp
    · rw [if_neg hx]
      by_cases he : fi.Field.addr = x.Field.addr
      · exact ⟨x, List.mem_cons_self _ _, he.symm⟩
      · rcases List.mem_cons.1 h with h | h
        · subst h
          exact absurd rfl he
        · obtain ⟨fj, hfj, hfe⟩ := ih (Function.update processed x.Field.addr true) h
            (by rwa [Function.update_noteq he])
          exact ⟨fj, List.mem_cons_of_mem _ hfj, hfe⟩

theorem fieldRefsFrom_addr (n : Nat) (list : List Field) :
    (fieldRefsFrom n list).map (fun p => p.addr) = List.range' n list.length := by
  induction list generalizing n with
  | nil => rfl
  | cons d ds ih => simp [fieldRefsFrom, ih, List.range'_succ]

theorem fieldRefsFrom_val (n : Nat) (list : List Field) :
    (fieldRefsFrom n list).map (fun p => p.val) = list := by
  induction list generalizing n with
  | nil => rfl
  | cons d ds ih => simp [fieldRefsFrom, ih]

theorem fieldRefs_nodup (list : List Field) :
    ((fieldRefs list).map (fun p => p.addr)).Nodup := by
  unfold fieldRefs
  rw [fieldRefsFrom_addr]
  exact List.nodup_range' _ _

theorem fieldRefs_inj (list : List Field) (p q : FieldRef) (hp : p ∈ fieldRefs list)
    (hq : q ∈ fieldRefs list) (h : p.addr = q.addr) : p = q :=
  List.inj_on_of_nodup_map (fieldRefs_nodup list) hp hq h

theorem fieldInfos_field (owner : FieldRef) (fi : FieldInfo) (h : fi ∈ fieldInfos owner) :
    fi.Field = owner ∧ fi.TypeSize = getTypeSize owner.val.Type_ := by
  unfold fieldInfos at h
  simp only at h
  split at h
  · obtain ⟨name, _, rfl⟩ := List.mem_map.1 h
    exact ⟨rfl, rfl⟩
  · rw [List.mem_singleton] at h
    subst h
    exact ⟨rfl, rfl⟩

theorem fieldInfos_ne_nil (owner : FieldRef) : fieldInfos owner ≠ [] := by
  intro h
  have := fieldInfos_length owner
  rw [h] at this
  have h1 : 1 ≤ max 1 owner.val.Names.length := le_max_left _ _
  simp only [List.length_nil] at this
  omega

theorem mem_flattenFields (refs : List FieldRef) (fi : FieldInfo)
    (h : fi ∈ flattenFields refs) : fi.Field ∈ refs ∧ fi ∈ fieldInfos fi.Field := by
  unfold flattenFields at h
  obtain ⟨owner, ho, hfi⟩ := List.mem_flatMap.1 h
  have := (fieldInfos_field owner fi hfi).1
  rw [this]
  exact ⟨ho, hfi⟩

theorem filter_flattenFields (refs : List FieldRef) (owner : FieldRef)
    (hn : (refs.map (fun p => p.addr)).Nodup) (ho : owner ∈ refs) :
    (flattenFields refs).filter (fun fi => decide (fi.Field.addr = owner.addr)) =
      fieldInfos owner := by
  have hall : ∀ q : FieldRef, q.addr = owner.addr →
      (fieldInfos q).filter (fun fi => decide (fi.Field.addr = owner.addr)) = fieldInfos q := by
    intro q hq
    apply List.filter_eq_self.2
    intro fi hfi
    rw [(fieldInfos_field q fi hfi).1]
    simpa using hq
  have hnone : ∀ l : List FieldRef, owner.addr ∉ l.map (fun p => p.addr) →
      (flattenFields l).filter (fun fi => decide (fi.Field.addr = owner.addr)) = [] := by
    intro l hl
    apply List.filter_eq_nil_iff.2
    intro fi hfi
    have := (mem_flattenFields l fi hfi).1
    simp only [decide_eq_true_eq]
    intro he
    exact hl (List.mem_map.2 ⟨fi.Field, this, he⟩)
  induction refs with
  | nil => simp at ho
  | cons q qs ih =>
    have hcons : flattenFields (q :: qs) = fieldInfos q ++ flattenFields qs := by
      simp [flattenFields, List.flatMap_cons]
    rw [hcons, List.filter_append]
    rw [List.map_cons, List.nodup_cons] at hn
    rcases List.mem_cons.1 ho with h | h
    · subst h
      rw [hall owner rfl, hnone qs hn.1, List.append_nil]
    · have hne : q.addr ≠ owner.addr := by
        intro he
        exact hn.1 (List.mem_map.2 ⟨owner, h, he.symm⟩)
      have hq : (fieldInfos q).filter (fun fi => decide (fi.Field.addr = owner.addr)) = [] := by
        apply List.filter_eq_nil_iff.2
        intro fi hfi
        rw [(fieldInfos_field q fi hfi).1]
        simpa using hne
      rw [hq, ih hn.2 h, List.nil_append]

/-- The group of a declaration in the candidate sequence: a permutation of the entries of
the declaration, ordered by name. -/
theorem group_of_candidate (srt : SliceSorter) (list : List Field) (owner : FieldRef)
    (ho : owner ∈ fieldRefs list) :
    (fieldGroups (srt.sort less (flattenFields (fieldRefs list))) owner.addr).Perm
        (fieldInfos owner) ∧
    (fieldGroups (srt.sort less (flattenFields (fieldRefs list))) owner.addr).Pairwise
        (fun a b => a.Name ≤ b.Name) := by
  rw [fieldGroups_eq]
  have hperm : (List.filter (fun fi => decide (fi.Field.addr = owner.addr))
      (srt.sort less (flattenFields (fieldRefs list)))).Perm (fieldInfos owner) := by
    rw [← filter_flattenFields (fieldRefs list) owner (fieldRefs_nodup list) ho]
    exact (sort_perm srt _).filter _
  refine ⟨hperm, ?_⟩
  have hpw := (sort_pairwise srt (flattenFields (fieldRefs list))).filter
    (fun fi => decide (fi.Field.addr = owner.addr))
  refine List.Pairwise.imp_of_mem ?_ hpw
  intro a b ha hb hab
  have hsa := (fieldInfos_field owner a (hperm.subset ha)).2
  have hsb := (fieldInfos_field owner b (hperm.subset hb)).2
  exact hab.2 (hsa.trans hsb.symm)

/-- The output of `generateReorderedStruct` on the candidate of `analyzeStruct`: the
declarations are visited in some order, each once, and each contributes the declarations
`emittedFor` builds from its group. -/
theorem reconstruction_blocks (srt : SliceSorter) (structType : StructType)
    (fieldList : FieldList) (hf : structType.Fields = some fieldList)
    (hlen : 1 < fieldList.List.length) :
    ∃ order : List FieldRef, order.Perm (fieldRefs fieldList.List) ∧
      generateReorderedStruct structType (analyzeStruct srt structType).1 =
        some { Struct := structType.Struct
               Fields := some
                { Opening := fieldList.Opening
                  List := order.flatMap (emittedFor (fieldGroups (analyzeStruct srt structType).1))
                  Closing := fieldList.Closing }
               Incomplete := false } := by
  rw [analyzeStruct_eq srt structType fieldList hf hlen]
  simp only
  set cand := srt.sort less (flattenFields (fieldRefs fieldList.List)) with hcand
  have hperm : cand.Perm (flattenFields (fieldRefs fieldList.List)) := sort_perm srt _
  refine ⟨(firstEntries cand (fun _ => false)).map (fun fi => fi.Field), ?_, ?_⟩
  · have hsub : ∀ fi ∈ firstEntries cand (fun _ => false), fi.Field ∈ fieldRefs fieldList.List := by
      intro fi hfi
      have h1 := (firstEntries_mem _ _ fi hfi).1
      exact (mem_flattenFields _ fi (hperm.subset h1)).1
    have hnodup : ((firstEntries cand (fun _ => false)).map (fun fi => fi.Field)).Nodup := by
      have h := firstEntries_nodup cand (fun _ => false)
      have h2 : (firstEntries cand (fun _ => false)).map (fun fi => fi.Field.addr) =
          ((firstEntries cand (fun _ => false)).map (fun fi => fi.Field)).map (fun p => p.addr) := by
        rw [List.map_map]
        rfl
      rw [h2] at h
      exact List.Nodup.of_map _ h
    have hnodup2 : (fieldRefs fieldList.List).Nodup := List.Nodup.of_map _ (fieldRefs_nodup _)
    rw [List.perm_ext_iff_of_nodup hnodup hnodup2]
    intro p
    constructor
    · intro hp
      obtain ⟨fi, hfi, rfl⟩ := List.mem_map.1 hp
      exact hsub fi hfi
    · intro hp
      obtain ⟨fi, hfi⟩ := List.exists_mem_of_ne_nil _ (fieldInfos_ne_nil p)
      have hflat : fi ∈ flattenFields (fieldRefs fieldList.List) :=
        List.mem_flatMap.2 ⟨p, hp, hfi⟩
      obtain ⟨fj, hfj, he⟩ := firstEntries_cover cand (fun _ => false) fi
        (hperm.symm.subset hflat) rfl
      rw [(fieldInfos_field p fi hfi).1] at he
      have := fieldRefs_inj _ _ _ (hsub fj hfj) hp he
      exact List.mem_map.2 ⟨fj, hfj, this⟩
  · unfold generateReorderedStruct
    rw [hf]
    simp only
    rw [reorderLoop_eq, List.nil_append, List.flatMap_map]

theorem fieldInfos_pairs (owner : FieldRef) :
    (fieldInfos owner).map (fun entry => (entry.Name, entry.Field.val.Type_)) =
      declPairs owner.val := by
  unfold fieldInfos declPairs
  simp only
  split <;> simp

theorem flattenFields_pairs (refs : List FieldRef) :
    (flattenFields refs).map (fun entry => (entry.Name, entry.Field.val.Type_)) =
      refs.flatMap (fun p => declPairs p.val) := by
  induction refs with
  | nil => rfl
  | cons q qs ih =>
    have hcons : flattenFields (q :: qs) = fieldInfos q ++ flattenFields qs := by
      simp [flattenFields, List.flatMap_cons]
    rw [hcons, List.map_append, ih, fieldInfos_pairs, List.flatMap_cons]

theorem fieldPairs_eq (list : List Field) : fieldPairs list = list.flatMap declPairs := by
  unfold fieldPairs
  rw [flattenFields_pairs]
  have h := fieldRefsFrom_val 0 list
  have h2 : (fieldRefs list).flatMap (fun p => declPairs p.val) =
      ((fieldRefs list).map (fun p => p.val)).flatMap declPairs := by
    rw [List.flatMap_map]
  rw [h2]
  unfold fieldRefs
  rw [h]

theorem declPairs_splitField (f : FieldInfo) :
    declPairs (splitField f) = [(f.Name, f.Field.val.Type_)] := by
  unfold declPairs splitField
  by_cases h : f.Name = ""
  · simp [h]
  · simp [h]

theorem emittedFor_pairs (srt : SliceSorter) (list : List Field) (owner : FieldRef)
    (ho : owner ∈ fieldRefs list) :
    ((emittedFor (fieldGroups (srt.sort less (flattenFields (fieldRefs list)))) owner).flatMap
        declPairs).Perm (declPairs owner.val) := by
  unfold emittedFor
  split
  · simp
  · have hg := (group_of_candidate srt list owner ho).1
    have h1 : ((fieldGroups (srt.sort less (flattenFields (fieldRefs list))) owner.addr).map
        splitField).flatMap declPairs =
        (fieldGroups (srt.sort less (flattenFields (fieldRefs list))) owner.addr).map
          (fun entry => (entry.Name, entry.Field.val.Type_)) := by
      rw [List.flatMap_map]
      simp only [declPairs_splitField]
      induction (fieldGroups (srt.sort less (flattenFields (fieldRefs list))) owner.addr) with
      | nil => rfl
      | cons x xs ih => simp [List.flatMap_cons, ih]
    rw [h1, ← fieldInfos_pairs]
    exact hg.map _

/-- C8: for a record with more than one declaration, `generateReorderedStruct` applied to
the candidate of `analyzeStruct` returns a declaration list that represents the same fields:
its flattened (name, type) pairs are a permutation of those of the original, so no field is
lost, duplicated, renamed or retyped. -/
theorem generateReorderedStruct_same_fields (srt : SliceSorter) (structType : StructType)
    (fieldList : FieldList) (hf : structType.Fields = some fieldList)
    (hlen : 1 < fieldList.List.length) :
    ∃ (newStruct : StructType) (newFields : FieldList),
      generateReorderedStruct structType (analyzeStruct srt structType).1 = some newStruct ∧
      newStruct.Fields = some newFields ∧
      (fieldPairs newFields.List).Perm (fieldPairs fieldList.List) := by
  obtain ⟨order, hperm, hgen⟩ := reconstruction_blocks srt structType fieldList hf hlen
  refine ⟨_, _, hgen, rfl, ?_⟩
  simp only
  rw [analyzeStruct_eq srt structType fieldList hf hlen]
  simp only
  rw [fieldPairs_eq, fieldPairs_eq, List.flatMap_assoc]
  have h1 := List.Perm.flatMap_left order
    (fun p hp => emittedFor_pairs srt fieldList.List p (hperm.subset hp))
  refine h1.trans ?_
  refine (hperm.flatMap_right _).trans ?_
  have h2 : (fieldRefs fieldList.List).flatMap (fun p => declPairs p.val) =
      ((fieldRefs fieldList.List).map (fun p => p.val)).flatMap declPairs := by
    rw [List.flatMap_map]
  rw [h2]
  unfold fieldRefs
  rw [fieldRefsFrom_val]

/-- C8 at the record `x, y int32; z int64`: the reconstruction holds the fields z, x, y with
their types. -/
theorem generateReorderedStruct_same_fields_witness :
    1 < recordXYZ.List.length ∧
    ∃ (newStruct : StructType) (newFields : FieldList),
      generateReorderedStruct (structOf recordXYZ.List)
        (analyzeStruct insertionSorter (structOf recordXYZ.List)).1 = some newStruct ∧
      newStruct.Fields = some newFields ∧
      (fieldPairs newFields.List).Perm (fieldPairs recordXYZ.List) :=
  ⟨by decide,
    generateReorderedStruct_same_fields insertionSorter (structOf recordXYZ.List) recordXYZ rfl
      (by decide)⟩

theorem group_length (srt : SliceSorter) (list : List Field) (owner : FieldRef)
    (ho : owner ∈ fieldRefs list) :
    (fieldGroups (srt.sort less (flattenFields (fieldRefs list))) owner.addr).length =
      max 1 owner.val.Names.length := by
  rw [(group_of_candidate srt list owner ho).1.length_eq, fieldInfos_length]

/-- C9: for a record with more than one declaration, the output of
`generateReorderedStruct` on the candidate of `analyzeStruct` is made of one block of
declarations per original declaration, each original declaration visited once; the block of
a declaration binding one name or none is that declaration alone, with names, type,
documentation, tag and trailing comment unchanged, so it occurs in the output. -/
theorem generateReorderedStruct_keeps_single (srt : SliceSorter) (structType : StructType)
    (fieldList : FieldList) (hf : structType.Fields = some fieldList)
    (hlen : 1 < fieldList.List.length) :
    ∃ (order : List FieldRef) (pieces : FieldRef → List Field) (newStruct : StructType)
      (newFields : FieldList),
      generateReorderedStruct structType (analyzeStruct srt structType).1 = some newStruct ∧
      newStruct.Fields = some newFields ∧
      order.Perm (fieldRefs fieldList.List) ∧
      newFields.List = order.flatMap pieces ∧
      (∀ p ∈ fieldRefs fieldList.List, (pieces p).length = max 1 p.val.Names.length) ∧
      (∀ p ∈ fieldRefs fieldList.List, p.val.Names.length ≤ 1 →
        pieces p = [p.val] ∧ p.val ∈ newFields.List) := by
  obtain ⟨order, hperm, hgen⟩ := reconstruction_blocks srt structType fieldList hf hlen
  have hsingle : ∀ p ∈ fieldRefs fieldList.List, p.val.Names.length ≤ 1 →
      emittedFor (fieldGroups (analyzeStruct srt structType).1) p = [p.val] := by
    intro p hp hk
    rw [analyzeStruct_eq srt structType fieldList hf hlen]
    simp only
    have hl := group_length srt fieldList.List p hp
    have h1 : max 1 p.val.Names.length = 1 := by omega
    unfold emittedFor
    rw [if_pos (hl.trans h1)]
  refine ⟨order, _, _, _, hgen, rfl, hperm, rfl, ?_, ?_⟩
  · intro p hp
    rw [analyzeStruct_eq srt structType fieldList hf hlen]
    simp only
    have hl := group_length srt fieldList.List p hp
    unfold emittedFor
    split
    · rename_i h1
      rw [← hl, h1]
      rfl
    · rw [List.length_map, hl]
  · intro p hp hk
    refine ⟨hsingle p hp hk, ?_⟩
    refine List.mem_flatMap.2 ⟨p, hperm.symm.subset hp, ?_⟩
    rw [hsingle p hp hk]
    exact List.mem_singleton.2 rfl

/-- C9 at the record `x, y int32; z int64`: the declaration of `z` is kept as it is, with
the position of its name. -/
theorem generateReorderedStruct_keeps_single_witness :
    1 < recordXYZ.List.length ∧
    (∃ (order : List FieldRef) (pieces : FieldRef → List Field) (newStruct : StructType)
      (newFields : FieldList),
      generateReorderedStruct (structOf recordXYZ.List)
        (analyzeStruct insertionSorter (structOf recordXYZ.List)).1 = some newStruct ∧
      newStruct.Fields = some newFields ∧
      order.Perm (fieldRefs recordXYZ.List) ∧
      newFields.List = order.flatMap pieces ∧
      (∀ p ∈ fieldRefs recordXYZ.List, (pieces p).length = max 1 p.val.Names.length) ∧
      (∀ p ∈ fieldRefs recordXYZ.List, p.val.Names.length ≤ 1 →
        pieces p = [p.val] ∧ p.val ∈ newFields.List)) ∧
    ((generateReorderedStruct (structOf recordXYZ.List)
        (analyzeStruct insertionSorter (structOf recordXYZ.List)).1).bind
      (fun newStruct => newStruct.Fields)).map
      (fun newFields => newFields.List.map (fun d => d.Names)) =
      some [[{ NamePos := 1, Name := "z" }], [{ NamePos := 0, Name := "x" }],
        [{ NamePos := 0, Name := "y" }]] :=
  ⟨by decide,
    generateReorderedStruct_keeps_single insertionSorter (structOf recordXYZ.List) recordXYZ rfl
      (by decide),
    by decide⟩

theorem fieldInfos_names (owner : FieldRef) (h : 0 < owner.val.Names.length) :
    (fieldInfos owner).map (fun entry => entry.Name) =
      owner.val.Names.map (fun name => name.Name) := by
  unfold fieldInfos
  simp only
  rw [if_pos h, List.map_map]
  rfl

theorem mem_fieldRefs_val (list : List Field) (p : FieldRef) (hp : p ∈ fieldRefs list) :
    p.val ∈ list := by
  have h : p.val ∈ (fieldRefs list).map (fun q => q.val) := List.mem_map.2 ⟨p, hp, rfl⟩
  unfold fieldRefs at h
  rwa [fieldRefsFrom_val] at h

/-- C10: for a record with more than one declaration (identifiers being non-empty, as in
every parsed source), the output of `generateReorderedStruct` on the candidate of
`analyzeStruct` is made of one block per original declaration, and the block of a
declaration binding k > 1 names is k declarations, one per bound name, each binding that
single name and carrying the type, documentation, tag and trailing comment of the original,
listed in ascending name order. -/
theorem generateReorderedStruct_splits (srt : SliceSorter) (structType : StructType)
    (fieldList : FieldList) (hf : structType.Fields = some fieldList)
    (hlen : 1 < fieldList.List.length)
    (hnames : ∀ d ∈ fieldList.List, ∀ name ∈ d.Names, name.Name ≠ "") :
    ∃ (order : List FieldRef) (pieces : FieldRef → List Field) (newStruct : StructType)
      (newFields : FieldList),
      generateReorderedStruct structType (analyzeStruct srt structType).1 = some newStruct ∧
      newStruct.Fields = some newFields ∧
      order.Perm (fieldRefs fieldList.List) ∧
      newFields.List = order.flatMap pieces ∧
      ∀ p ∈ fieldRefs fieldList.List, 1 < p.val.Names.length →
        ∃ names : List String,
          names.Perm (p.val.Names.map (fun name => name.Name)) ∧
          names.Chain' (fun a b => a ≤ b) ∧
          pieces p = names.map (singleName p.val) ∧
          (pieces p).length = p.val.Names.length := by
  obtain ⟨order, hperm, hgen⟩ := reconstruction_blocks srt structType fieldList hf hlen
  refine ⟨order, _, _, _, hgen, rfl, hperm, rfl, ?_⟩
  intro p hp hk
  rw [analyzeStruct_eq srt structType fieldList hf hlen]
  simp only
  have hl := group_length srt fieldList.List p hp
  obtain ⟨hgperm, hgsorted⟩ := group_of_candidate srt fieldList.List p hp
  have hpos : 0 < p.val.Names.length := by omega
  have hnamesperm :
      ((fieldGroups (srt.sort less (flattenFields (fieldRefs fieldList.List))) p.addr).map
        (fun entry => entry.Name)).Perm (p.val.Names.map (fun name => name.Name)) := by
    rw [← fieldInfos_names p hpos]
    exact hgperm.map _
  have hpieces : emittedFor (fieldGroups (srt.sort less (flattenFields (fieldRefs fieldList.List)))) p =
      ((fieldGroups (srt.sort less (flattenFields (fieldRefs fieldList.List))) p.addr).map
        (fun entry => entry.Name)).map (singleName p.val) := by
    unfold emittedFor
    rw [if_neg (by omega), List.map_map]
    apply List.map_congr_left
    intro f hf'
    have hfield := (fieldInfos_field p f (hgperm.subset hf')).1
    have hmem : f.Name ∈ p.val.Names.map (fun name => name.Name) :=
      hnamesperm.subset (List.mem_map.2 ⟨f, hf', rfl⟩)
    obtain ⟨name, hname, hne⟩ := List.mem_map.1 hmem
    have hnonempty : f.Name ≠ "" := by
      rw [← hne]
      exact hnames p.val (mem_fieldRefs_val _ p hp) name hname
    simp only [Function.comp, splitField, singleName, hfield, if_pos hnonempty]
  refine ⟨_, hnamesperm, ?_, hpieces, ?_⟩
  · apply List.Pairwise.chain'
    rw [List.pairwise_map]
    exact hgsorted
  · rw [hpieces, List.length_map, List.length_map, hl]
    omega

/-- C10 at the record `b, a int64; ok bool`: the declaration binding `b, a` becomes the
declarations `a` and `b`, in that order, each with the original documentation, tag and
comment. -/
theorem generateReorderedStruct_splits_witness :
    (1 < recordBA.List.length ∧ ∀ d ∈ recordBA.List, ∀ name ∈ d.Names, name.Name ≠ "") ∧
    (∃ (order : List FieldRef) (pieces : FieldRef → List Field) (newStruct : StructType)
      (newFields : FieldList),
      generateReorderedStruct (structOf recordBA.List)
        (analyzeStruct insertionSorter (structOf recordBA.List)).1 = some newStruct ∧
      newStruct.Fields = some newFields ∧
      order.Perm (fieldRefs recordBA.List) ∧
      newFields.List = order.flatMap pieces ∧
      ∀ p ∈ fieldRefs recordBA.List, 1 < p.val.Names.length →
        ∃ names : List String,
          names.Perm (p.val.Names.map (fun name => name.Name)) ∧
          names.Chain' (fun a b => a ≤ b) ∧
          pieces p = names.map (singleName p.val) ∧
          (pieces p).length = p.val.Names.length) ∧
    ((generateReorderedStruct (structOf recordBA.List)
        (analyzeStruct insertionSorter (structOf recordBA.List)).1).bind
      (fun newStruct => newStruct.Fields)).map
      (fun newFields => newFields.List.map
        (fun d => (d.Names.map (fun name => name.Name), d.Doc, d.Comment))) =
      some [(["a"], some { List := ["// counters"] }, some { List := ["// both"] }),
        (["b"], some { List := ["// counters"] }, some { List := ["// both"] }),
        (["ok"], none, none)] :=
  ⟨⟨by decide, by decide⟩,
    generateReorderedStruct_splits insertionSorter (structOf recordBA.List) recordBA rfl
      (by decide) (by decide),
    by decide⟩

/-! ## Eligibility and the size of interface types -/

theorem analyzeStruct_declarations (srt : SliceSorter) (structType : StructType) :
    analyzeStruct srt structType =
      if (declarations structType).length ≤ 1 then ([], false)
      else (srt.sort less (flattenFields (fieldRefs (declarations structType))),
        needsReordering (flattenFields (fieldRefs (declarations structType)))
          (srt.sort less (flattenFields (fieldRefs (declarations structType))))) := by
  unfold analyzeStruct declarations
  cases structType.Fields with
  | none => simp
  | some fieldList => rfl

theorem sort_ne_nil (srt : SliceSorter) (list : List Field) (h : 1 < list.length) :
    srt.sort less (flattenFields (fieldRefs list)) ≠ [] := by
  intro he
  have h1 := (sort_perm srt (flattenFields (fieldRefs list))).length_eq
  have h2 := length_le_flattenFields_length list
  rw [he] at h1
  simp only [List.length_nil] at h1
  omega

/-- C18, as the code has it: eligibility is decided by the number of declarations.
`analyzeStruct` skips a record (empty candidate, verdict "no reordering needed") exactly
when its field list is nil or holds at most one declaration, whatever the number of names
that declaration binds; a record with two or more declarations is analysed and yields a
non-empty candidate and the verdict of the comparison. -/
theorem analyzeStruct_eligibility (srt : SliceSorter) (structType : StructType) :
    ((analyzeStruct srt structType).1 = [] ↔ (declarations structType).length ≤ 1) ∧
    ((declarations structType).length ≤ 1 → analyzeStruct srt structType = ([], false)) ∧
    (1 < (declarations structType).length →
      (analyzeStruct srt structType).1 ≠ [] ∧
      (analyzeStruct srt structType).2 =
        needsReordering (flattenFields (fieldRefs (declarations structType)))
          (analyzeStruct srt structType).1) := by
  rw [analyzeStruct_declarations]
  by_cases h : (declarations structType).length ≤ 1
  · rw [if_pos h]
    exact ⟨⟨fun _ => h, fun _ => rfl⟩, fun _ => rfl, fun h1 => by omega⟩
  · rw [if_neg h]
    have hne := sort_ne_nil srt (declarations structType) (by omega)
    exact ⟨⟨fun he => absurd he hne, fun h1 => absurd h1 h⟩, fun h1 => absurd h1 h,
      fun _ => ⟨hne, rfl⟩⟩

/-- C18 as amended, at the record `b, a int64` (skipped) and at `x, y int32; z int64`
(analysed). -/
theorem analyzeStruct_eligibility_witness :
    analyzeStruct insertionSorter (structOf recordOneDeclaration.List) = ([], false) ∧
    (analyzeStruct insertionSorter (structOf recordXYZ.List)).1 ≠ [] :=
  ⟨(analyzeStruct_eligibility insertionSorter (structOf recordOneDeclaration.List)).2.1
      (by decide),
    ((analyzeStruct_eligibility insertionSorter (structOf recordXYZ.List)).2.2
      (by decide)).1⟩

/-- C18 as stated fails at the record `b, a int64`: it has two flattened entries, and
`analyzeStruct` skips it with an empty candidate sequence. -/
theorem one_declaration_is_skipped :
    (flattenFields (fieldRefs recordOneDeclaration.List)).length = 2 ∧
    (analyzeStruct insertionSorter (structOf recordOneDeclaration.List)).1.length = 0 ∧
    (analyzeStruct insertionSorter (structOf recordOneDeclaration.List)).2 = false := by
  decide

/-- C19 on the code: the predeclared interface names `error` and `any` have no case in
`getTypeSize` and get the fallback 8, while every interface type literal gets 16. -/
theorem getTypeSize_interface_names :
    getTypeSize (.Ident "error") = 8 ∧ getTypeSize (.Ident "any") = 8 ∧
    ∀ methods, getTypeSize (.InterfaceType methods) = 16 :=
  ⟨by decide, by decide, fun _ => rfl⟩

/-! ## The analysis looks at names and types only -/

theorem keys_unique (xs ys : List FieldInfo)
    (hp : (xs.map (fun e => (e.TypeSize, e.Name))).Perm (ys.map (fun e => (e.TypeSize, e.Name))))
    (hx : xs.Pairwise Ordered) (hy : ys.Pairwise Ordered) :
    xs.map (fun e => (e.TypeSize, e.Name)) = ys.map (fun e => (e.TypeSize, e.Name)) := by
  let r : ℕ × String → ℕ × String → Prop := fun p q => q.1 ≤ p.1 ∧ (p.1 = q.1 → p.2 ≤ q.2)
  have hmap : ∀ l : List FieldInfo,
      l.Pairwise Ordered ↔ (l.map (fun e => (e.TypeSize, e.Name))).Pairwise r := by
    intro l
    rw [List.pairwise_map]
    rfl
  haveI : IsAntisymm (ℕ × String) r := by
    refine ⟨fun p q hpq hqp => ?_⟩
    have h1 : p.1 = q.1 := le_antisymm hqp.1 hpq.1
    exact Prod.ext h1 (le_antisymm (hpq.2 h1) (hqp.2 h1.symm))
  exact List.eq_of_perm_of_sorted hp ((hmap _).1 hx) ((hmap _).1 hy)

theorem fieldInfos_keys (owner : FieldRef) :
    (fieldInfos owner).map (fun e => (e.TypeSize, e.Name)) =
      signatureKeys (signature owner.val) := by
  unfold fieldInfos signatureKeys signature
  simp only [List.length_map]
  split <;> simp

theorem flattenFields_keys (refs : List FieldRef) :
    (flattenFields refs).map (fun e => (e.TypeSize, e.Name)) =
      (refs.map (fun p => signature p.val)).flatMap signatureKeys := by
  induction refs with
  | nil => rfl
  | cons q qs ih =>
    have hcons : flattenFields (q :: qs) = fieldInfos q ++ flattenFields qs := by
      simp [flattenFields, List.flatMap_cons]
    rw [hcons, List.map_append, ih, fieldInfos_keys, List.map_cons, List.flatMap_cons]

theorem flatten_keys (list : List Field) :
    (flattenFields (fieldRefs list)).map (fun e => (e.TypeSize, e.Name)) =
      (list.map signature).flatMap signatureKeys := by
  rw [flattenFields_keys]
  have h : (fieldRefs list).map (fun p => signature p.val) =
      ((fieldRefs list).map (fun p => p.val)).map signature := by
    rw [List.map_map]
    rfl
  rw [h]
  unfold fieldRefs
  rw [fieldRefsFrom_val]

theorem sort_keys_congr (srt : SliceSorter) (xs ys : List FieldInfo)
    (h : xs.map (fun e => (e.TypeSize, e.Name)) = ys.map (fun e => (e.TypeSize, e.Name))) :
    (srt.sort less xs).map (fun e => (e.TypeSize, e.Name)) =
      (srt.sort less ys).map (fun e => (e.TypeSize, e.Name)) := by
  apply keys_unique _ _ _ (sort_pairwise srt xs) (sort_pairwise srt ys)
  refine ((sort_perm srt xs).map _).trans ?_
  rw [h]
  exact ((sort_perm srt ys).map _).symm

theorem needsReordering_congr (xs xs' ys ys' : List FieldInfo)
    (hx : xs.map (fun e => (e.TypeSize, e.Name)) = xs'.map (fun e => (e.TypeSize, e.Name)))
    (hy : ys.map (fun e => (e.TypeSize, e.Name)) = ys'.map (fun e => (e.TypeSize, e.Name)))
    (hlen : xs.length = ys.length) :
    needsReordering xs ys = needsReordering xs' ys' := by
  have hlen' : xs'.length = ys'.length := by
    have h1 := congrArg List.length hx
    have h2 := congrArg List.length hy
    simp only [List.length_map] at h1 h2
    omega
  have h1 := needsReordering_eq_false_iff xs ys hlen
  have h2 := needsReordering_eq_false_iff xs' ys' hlen'
  rw [hx, hy] at h1
  have h3 : needsReordering xs ys = false ↔ needsReordering xs' ys' = false := h1.trans h2.symm
  cases ha : needsReordering xs ys <;> cases hb : needsReordering xs' ys' <;> simp_all

/-- C14: the analysis depends on names and types only.  For two records whose declarations
agree pairwise on the bound names and on the type expression (and may differ in
documentation, tag, trailing comment and positions), `analyzeStruct` returns the same
verdict and candidate sequences with the same (name, size) pair at every position. -/
theorem analyzeStruct_structural (srt : SliceSorter) (first second : StructType)
    (h : (declarations first).map signature = (declarations second).map signature) :
    (analyzeStruct srt first).2 = (analyzeStruct srt second).2 ∧
    (analyzeStruct srt first).1.map (fun e => (e.Name, e.TypeSize)) =
      (analyzeStruct srt second).1.map (fun e => (e.Name, e.TypeSize)) := by
  have hlen : (declarations first).length = (declarations second).length := by
    have := congrArg List.length h
    simpa using this
  have hflat : (flattenFields (fieldRefs (declarations first))).map
      (fun e => (e.TypeSize, e.Name)) =
      (flattenFields (fieldRefs (declarations second))).map (fun e => (e.TypeSize, e.Name)) := by
    rw [flatten_keys, flatten_keys, h]
  have hcand := sort_keys_congr srt _ _ hflat
  rw [analyzeStruct_declarations, analyzeStruct_declarations, hlen]
  by_cases hle : (declarations second).length ≤ 1
  · rw [if_pos hle, if_pos hle]
    exact ⟨rfl, rfl⟩
  · rw [if_neg hle, if_neg hle]
    refine ⟨needsReordering_congr _ _ _ _ hflat hcand (sort_perm srt _).length_eq.symm, ?_⟩
    have := congrArg (List.map Prod.swap) hcand
    simpa [List.map_map, Function.comp] using this

/-- C14 at `flag bool; id int64; name string`, without and with documentation and a tag on
the second declaration. -/
theorem analyzeStruct_structural_witness :
    (analyzeStruct insertionSorter (structOf recordFlagIdName.List)).2 =
      (analyzeStruct insertionSorter (structOf
        [plainField ["flag"] (.Ident "bool"),
          { Doc := some { List := ["// key"] }, Names := [{ NamePos := 30, Name := "id" }],
            Type_ := .Ident "int64", Tag := some { ValuePos := 40, Kind := 9, Value := "db" },
            Comment := none },
          plainField ["name"] (.Ident "string")])).2 :=
  (analyzeStruct_structural insertionSorter (structOf recordFlagIdName.List) _ (by rfl)).1

/-! ## The reconstructed record -/

theorem generate_rebuilt (srt : SliceSorter) (structType : StructType)
    (fieldList : FieldList) (hf : structType.Fields = some fieldList)
    (hlen : 1 < fieldList.List.length) :
    generateReorderedStruct structType (analyzeStruct srt structType).1 =
      some { Struct := structType.Struct
             Fields := some { Opening := fieldList.Opening
                              List := rebuilt srt fieldList.List
                              Closing := fieldList.Closing }
             Incomplete := false } := by
  rw [analyzeStruct_eq srt structType fieldList hf hlen]
  unfold generateReorderedStruct rebuilt candidateOf
  rw [hf]
  simp only
  rw [reorderLoop_eq, List.nil_append]

theorem candidate_field_mem (srt : SliceSorter) (list : List Field) (fi : FieldInfo)
    (h : fi ∈ candidateOf srt list) : fi.Field ∈ fieldRefs list ∧ fi ∈ fieldInfos fi.Field :=
  mem_flattenFields _ fi ((sort_perm srt _).subset h)

theorem firstEntries_sublist (reorderedFields : List FieldInfo) (processed : Nat → Bool) :
    (firstEntries reorderedFields processed).Sublist reorderedFields := by
  induction reorderedFields generalizing processed with
  | nil => simp [firstEntries]
  | cons x rest ih =>
    unfold firstEntries
    split
    · exact (ih _).cons _
    · exact (ih _).cons₂ _

theorem first_field_mem (srt : SliceSorter) (list : List Field) (fi : FieldInfo)
    (h : fi ∈ firstEntries (candidateOf srt list) (fun _ => false)) :
    fi.Field ∈ fieldRefs list :=
  (candidate_field_mem srt list fi ((firstEntries_sublist _ _).subset h)).1

theorem emittedFor_length (srt : SliceSorter) (list : List Field) (owner : FieldRef)
    (ho : owner ∈ fieldRefs list) :
    (emittedFor (fieldGroups (candidateOf srt list)) owner).length =
      max 1 owner.val.Names.length := by
  have hl := group_length srt list owner ho
  unfold emittedFor candidateOf
  split
  · rename_i h1
    rw [← hl, h1]
    rfl
  · rw [List.length_map, hl]

theorem group_member_field (srt : SliceSorter) (list : List Field) (owner : FieldRef)
    (ho : owner ∈ fieldRefs list) (f : FieldInfo)
    (hf : f ∈ fieldGroups (candidateOf srt list) owner.addr) :
    f.Field = owner ∧ f.TypeSize = getTypeSize owner.val.Type_ :=
  fieldInfos_field owner f ((group_of_candidate srt list owner ho).1.subset hf)

theorem emittedFor_mem (srt : SliceSorter) (list : List Field) (owner : FieldRef)
    (ho : owner ∈ fieldRefs list) (d : Field)
    (hd : d ∈ emittedFor (fieldGroups (candidateOf srt list)) owner) :
    d.Names.length ≤ 1 ∧ d.Type_ = owner.val.Type_ ∧ d.Doc = owner.val.Doc ∧
      d.Tag = owner.val.Tag ∧ d.Comment = owner.val.Comment := by
  have hl := group_length srt list owner ho
  unfold emittedFor at hd
  split at hd
  · rename_i h1
    rw [List.mem_singleton] at hd
    subst hd
    unfold candidateOf at h1
    rw [hl] at h1
    exact ⟨by omega, rfl, rfl, rfl, rfl⟩
  · obtain ⟨f, hf, rfl⟩ := List.mem_map.1 hd
    have hfield := (group_member_field srt list owner ho f hf).1
    refine ⟨?_, ?_, ?_, ?_, ?_⟩
    · unfold splitField
      simp only
      split <;> simp
    all_goals simp [splitField, hfield]

theorem rebuilt_mem (srt : SliceSorter) (list : List Field) (d : Field)
    (hd : d ∈ rebuilt srt list) :
    ∃ owner ∈ fieldRefs list, d.Names.length ≤ 1 ∧ d.Type_ = owner.val.Type_ ∧
      d.Doc = owner.val.Doc ∧ d.Tag = owner.val.Tag ∧ d.Comment = owner.val.Comment := by
  unfold rebuilt at hd
  obtain ⟨fi, hfi, hmem⟩ := List.mem_flatMap.1 hd
  have ho := first_field_mem srt list fi hfi
  exact ⟨fi.Field, ho, emittedFor_mem srt list fi.Field ho d hmem⟩

theorem length_le_flatMap_length {α β : Type} (f : α → List β) (l : List α)
    (h : ∀ a ∈ l, 1 ≤ (f a).length) : l.length ≤ (l.flatMap f).length := by
  induction l with
  | nil => simp
  | cons a as ih =>
    rw [List.flatMap_cons, List.length_append, List.length_cons]
    have h1 := h a (List.mem_cons_self _ _)
    have h2 := ih (fun b hb => h b (List.mem_cons_of_mem _ hb))
    omega

theorem first_fields_perm (srt : SliceSorter) (list : List Field) :
    ((firstEntries (candidateOf srt list) (fun _ => false)).map (fun fi => fi.Field)).Perm
      (fieldRefs list) := by
  have hperm : (candidateOf srt list).Perm (flattenFields (fieldRefs list)) := sort_perm srt _
  have hnodup : ((firstEntries (candidateOf srt list) (fun _ => false)).map
      (fun fi => fi.Field)).Nodup := by
    have h := firstEntries_nodup (candidateOf srt list) (fun _ => false)
    have h2 : (firstEntries (candidateOf srt list) (fun _ => false)).map
        (fun fi => fi.Field.addr) =
        ((firstEntries (candidateOf srt list) (fun _ => false)).map
          (fun fi => fi.Field)).map (fun p => p.addr) := by
      rw [List.map_map]
      rfl
    rw [h2] at h
    exact List.Nodup.of_map _ h
  have hnodup2 : (fieldRefs list).Nodup := List.Nodup.of_map _ (fieldRefs_nodup _)
  rw [List.perm_ext_iff_of_nodup hnodup hnodup2]
  intro p
  constructor
  · intro hp
    obtain ⟨fi, hfi, rfl⟩ := List.mem_map.1 hp
    exact first_field_mem srt list fi hfi
  · intro hp
    obtain ⟨fi, hfi⟩ := List.exists_mem_of_ne_nil _ (fieldInfos_ne_nil p)
    have hflat : fi ∈ flattenFields (fieldRefs list) := List.mem_flatMap.2 ⟨p, hp, hfi⟩
    obtain ⟨fj, hfj, he⟩ := firstEntries_cover (candidateOf srt list) (fun _ => false) fi
      (hperm.symm.subset hflat) rfl
    rw [(fieldInfos_field p fi hfi).1] at he
    have := fieldRefs_inj _ _ _ (first_field_mem srt list fj hfj) hp he
    exact List.mem_map.2 ⟨fj, hfj, this⟩

theorem rebuilt_length (srt : SliceSorter) (list : List Field) :
    list.length ≤ (rebuilt srt list).length := by
  have h1 := length_le_flatMap_length
    (fun fi : FieldInfo => emittedFor (fieldGroups (candidateOf srt list)) fi.Field)
    (firstEntries (candidateOf srt list) (fun _ => false))
    (fun fi hfi => by
      rw [emittedFor_length srt list fi.Field (first_field_mem srt list fi hfi)]
      exact le_max_left _ _)
  have h2 := (first_fields_perm srt list).length_eq
  have h3 : (fieldRefs list).length = list.length := by
    have := congrArg List.length (fieldRefsFrom_val 0 list)
    simpa [fieldRefs] using this
  rw [List.length_map] at h2
  unfold rebuilt
  omega

theorem flatMap_singleton_map {α β : Type} (f : α → β) (l : List α) :
    l.flatMap (fun a => [f a]) = l.map f := by
  induction l with
  | nil => rfl
  | cons a as ih => simp [List.flatMap_cons, ih]

theorem flattenFields_fields_single (refs : List FieldRef)
    (h : ∀ p ∈ refs, p.val.Names.length ≤ 1) :
    (flattenFields refs).map (fun fi => fi.Field) = refs := by
  induction refs with
  | nil => rfl
  | cons q qs ih =>
    have hcons : flattenFields (q :: qs) = fieldInfos q ++ flattenFields qs := by
      simp [flattenFields, List.flatMap_cons]
    have hq : (fieldInfos q).map (fun fi => fi.Field) = [q] := by
      have hk := h q (List.mem_cons_self _ _)
      unfold fieldInfos
      simp only
      split
      · rename_i hpos
        cases hn : q.val.Names with
        | nil => simp [hn] at hpos
        | cons name names =>
          cases names with
          | nil => simp
          | cons n2 ns => simp [hn] at hk
      · simp
    rw [hcons, List.map_append, hq, ih (fun p hp => h p (List.mem_cons_of_mem _ hp))]
    rfl

theorem firstEntries_eq_self (reorderedFields : List FieldInfo) (processed : Nat → Bool)
    (hn : (reorderedFields.map (fun fi => fi.Field.addr)).Nodup)
    (hp : ∀ fi ∈ reorderedFields, processed fi.Field.addr = false) :
    firstEntries reorderedFields processed = reorderedFields := by
  induction reorderedFields generalizing processed with
  | nil => rfl
  | cons x rest ih =>
    rw [List.map_cons, List.nodup_cons] at hn
    unfold firstEntries
    rw [if_neg (by simp [hp x (List.mem_cons_self _ _)])]
    congr 1
    apply ih _ hn.2
    intro fi hfi
    have hne : fi.Field.addr ≠ x.Field.addr := by
      intro he
      exact hn.1 (List.mem_map.2 ⟨fi, hfi, he⟩)
    rw [Function.update_noteq hne]
    exact hp fi (List.mem_cons_of_mem _ hfi)

theorem fieldInfos_eq_singleton (owner : FieldRef) (fi : FieldInfo)
    (hfi : fi ∈ fieldInfos owner) (hk : owner.val.Names.length ≤ 1) : fieldInfos owner = [fi] := by
  have hl := fieldInfos_length owner
  have h1 : (fieldInfos owner).length = 1 := by omega
  obtain ⟨a, ha⟩ := List.length_eq_one.1 h1
  rw [ha] at hfi ⊢
  rw [List.mem_singleton] at hfi
  rw [hfi]

theorem rebuilt_single (srt : SliceSorter) (list : List Field)
    (h : ∀ d ∈ list, d.Names.length ≤ 1) :
    rebuilt srt list = (candidateOf srt list).map (fun fi => fi.Field.val) := by
  have hrefs : ∀ p ∈ fieldRefs list, p.val.Names.length ≤ 1 :=
    fun p hp => h p.val (mem_fieldRefs_val list p hp)
  have hperm : (candidateOf srt list).Perm (flattenFields (fieldRefs list)) := sort_perm srt _
  have hnodup : ((candidateOf srt list).map (fun fi => fi.Field.addr)).Nodup := by
    have h1 : ((candidateOf srt list).map (fun fi => fi.Field.addr)).Perm
        ((flattenFields (fieldRefs list)).map (fun fi => fi.Field.addr)) := hperm.map _
    have h2 : (flattenFields (fieldRefs list)).map (fun fi => fi.Field.addr) =
        (fieldRefs list).map (fun p => p.addr) := by
      have h3 := congrArg (List.map (fun p : FieldRef => p.addr))
        (flattenFields_fields_single _ hrefs)
      rw [List.map_map] at h3
      exact h3
    rw [h2] at h1
    exact h1.nodup_iff.2 (fieldRefs_nodup list)
  unfold rebuilt
  rw [firstEntries_eq_self _ _ hnodup (fun _ _ => rfl), ← flatMap_singleton_map]
  apply List.flatMap_congr
  intro fi hfi
  have ho := (candidate_field_mem srt list fi hfi).1
  have hl := group_length srt list fi.Field ho
  have hk := hrefs fi.Field ho
  unfold emittedFor
  rw [if_pos]
  unfold candidateOf
  omega

theorem rebuilt_single_keys (srt : SliceSorter) (list : List Field)
    (h : ∀ d ∈ list, d.Names.length ≤ 1) :
    (flattenFields (fieldRefs (rebuilt srt list))).map (fun e => (e.TypeSize, e.Name)) =
      (candidateOf srt list).map (fun e => (e.TypeSize, e.Name)) := by
  rw [flatten_keys, rebuilt_single srt list h, List.map_map, List.flatMap_map,
    ← flatMap_singleton_map]
  apply List.flatMap_congr
  intro fi hfi
  have hmem := candidate_field_mem srt list fi hfi
  have hk := h fi.Field.val (mem_fieldRefs_val list fi.Field hmem.1)
  simp only [Function.comp]
  rw [← fieldInfos_keys, fieldInfos_eq_singleton fi.Field fi hmem.2 hk]
  rfl

theorem pairwise_ordered_congr (xs ys : List FieldInfo)
    (h : xs.map (fun e => (e.TypeSize, e.Name)) = ys.map (fun e => (e.TypeSize, e.Name))) :
    xs.Pairwise Ordered ↔ ys.Pairwise Ordered := by
  let r : ℕ × String → ℕ × String → Prop := fun p q => q.1 ≤ p.1 ∧ (p.1 = q.1 → p.2 ≤ q.2)
  have hmap : ∀ l : List FieldInfo,
      l.Pairwise Ordered ↔ (l.map (fun e => (e.TypeSize, e.Name))).Pairwise r := by
    intro l
    rw [List.pairwise_map]
    rfl
  rw [hmap, hmap, h]

theorem verdict_false_of_ordered (srt : SliceSorter) (structType : StructType)
    (h : (flattenFields (fieldRefs (declarations structType))).Pairwise Ordered) :
    (analyzeStruct srt structType).2 = false := by
  rw [analyzeStruct_declarations]
  split
  · rfl
  · simp only
    rw [needsReordering_eq_false_iff _ _ (sort_perm srt _).length_eq.symm]
    exact (pairwise_ordered_iff_keys _ _ (sort_perm srt _) (sort_pairwise srt _)).1 h

theorem reanalysis_single (srt : SliceSorter) (list : List Field)
    (h : ∀ d ∈ list, d.Names.length ≤ 1) (structType : StructType)
    (hd : declarations structType = rebuilt srt list) :
    (analyzeStruct srt structType).2 = false := by
  apply verdict_false_of_ordered
  rw [hd, pairwise_ordered_congr _ _ (rebuilt_single_keys srt list h)]
  exact sort_pairwise srt _

/-- C16: fix mode is idempotent when no declaration binds several names.  For a record
with more than one declaration, each binding at most one name, the flattened (name, size)
sequence of the output of `generateReorderedStruct` is the candidate sequence of
`analyzeStruct` position by position, and analysing the output gives the verdict "no
reordering needed". -/
theorem fix_idempotent_without_groups (srt : SliceSorter) (structType : StructType)
    (fieldList : FieldList) (hf : structType.Fields = some fieldList)
    (hlen : 1 < fieldList.List.length)
    (hsingle : ∀ d ∈ fieldList.List, d.Names.length ≤ 1) :
    ∃ newStruct : StructType,
      generateReorderedStruct structType (analyzeStruct srt structType).1 = some newStruct ∧
      (flattenFields (fieldRefs (declarations newStruct))).map (fun e => (e.Name, e.TypeSize)) =
        (analyzeStruct srt structType).1.map (fun e => (e.Name, e.TypeSize)) ∧
      (analyzeStruct srt newStruct).2 = false := by
  refine ⟨_, generate_rebuilt srt structType fieldList hf hlen, ?_, ?_⟩
  · rw [analyzeStruct_eq srt structType fieldList hf hlen]
    have := congrArg (List.map Prod.swap) (rebuilt_single_keys srt fieldList.List hsingle)
    simpa [List.map_map, Function.comp, declarations, candidateOf] using this
  · exact reanalysis_single srt fieldList.List hsingle _ rfl

/-- C16 at the record `flag bool; id int64; name string`. -/
theorem fix_idempotent_without_groups_witness :
    (1 < recordFlagIdName.List.length ∧ ∀ d ∈ recordFlagIdName.List, d.Names.length ≤ 1) ∧
    ∃ newStruct : StructType,
      generateReorderedStruct (structOf recordFlagIdName.List)
        (analyzeStruct insertionSorter (structOf recordFlagIdName.List)).1 = some newStruct ∧
      (flattenFields (fieldRefs (declarations newStruct))).map (fun e => (e.Name, e.TypeSize)) =
        (analyzeStruct insertionSorter (structOf recordFlagIdName.List)).1.map
          (fun e => (e.Name, e.TypeSize)) ∧
      (analyzeStruct insertionSorter newStruct).2 = false :=
  ⟨⟨by decide, by decide⟩,
    fix_idempotent_without_groups insertionSorter (structOf recordFlagIdName.List)
      recordFlagIdName rfl (by decide) (by decide)⟩

theorem rebuilt_types_ordered (srt : SliceSorter) (list : List Field) :
    (rebuilt srt list).Pairwise
      (fun d d' => getTypeSize d'.Type_ ≤ getTypeSize d.Type_) := by
  unfold rebuilt
  rw [List.pairwise_flatMap]
  constructor
  · intro fi hfi
    have ho := first_field_mem srt list fi hfi
    apply List.pairwise_of_forall_mem_list
    intro d hd d' hd'
    rw [(emittedFor_mem srt list fi.Field ho d hd).2.1,
      (emittedFor_mem srt list fi.Field ho d' hd').2.1]
  · have hsub := (sort_pairwise srt (flattenFields (fieldRefs list))).sublist
      (firstEntries_sublist (candidateOf srt list) (fun _ => false))
    refine List.Pairwise.imp_of_mem ?_ hsub
    intro fi fj hfi hfj hord d hd d' hd'
    have hoi := first_field_mem srt list fi hfi
    have hoj := first_field_mem srt list fj hfj
    have hci := candidate_field_mem srt list fi ((firstEntries_sublist _ _).subset hfi)
    have hcj := candidate_field_mem srt list fj ((firstEntries_sublist _ _).subset hfj)
    rw [(emittedFor_mem srt list fi.Field hoi d hd).2.1,
      (emittedFor_mem srt list fj.Field hoj d' hd').2.1,
      ← (fieldInfos_field fi.Field fi hci.2).2, ← (fieldInfos_field fj.Field fj hcj.2).2]
    exact hord.1

theorem flatten_sizes_ordered (list : List Field)
    (h : list.Pairwise (fun d d' => getTypeSize d'.Type_ ≤ getTypeSize d.Type_)) :
    ((flattenFields (fieldRefs list)).map (fun e => e.TypeSize)).Pairwise
      (fun a b => b ≤ a) := by
  rw [List.pairwise_map]
  unfold flattenFields
  rw [List.pairwise_flatMap]
  constructor
  · intro p _
    apply List.pairwise_of_forall_mem_list
    intro x hx y hy
    rw [(fieldInfos_field p x hx).2, (fieldInfos_field p y hy).2]
  · have hval : (fieldRefs list).map (fun p => p.val) = list := fieldRefsFrom_val 0 list
    rw [← hval, List.pairwise_map] at h
    refine h.imp ?_
    intro p q hpq x hx y hy
    rw [(fieldInfos_field p x hx).2, (fieldInfos_field q y hy).2]
    exact hpq

theorem rebuilt_count (srt : SliceSorter) (list : List Field) :
    (rebuilt srt list).length = (list.map (fun d => max 1 d.Names.length)).sum := by
  have h1 : (rebuilt srt list).Perm
      ((fieldRefs list).flatMap (emittedFor (fieldGroups (candidateOf srt list)))) := by
    unfold rebuilt
    rw [← List.flatMap_map]
    exact (first_fields_perm srt list).flatMap_right _
  rw [h1.length_eq, List.length_flatMap]
  have h2 : (fieldRefs list).map
      (fun p => (emittedFor (fieldGroups (candidateOf srt list)) p).length) =
      (fieldRefs list).map (fun p => max 1 p.val.Names.length) :=
    List.map_congr_left (fun p hp => emittedFor_length srt list p hp)
  have h3 : (fieldRefs list).map (fun p => max 1 p.val.Names.length) =
      ((fieldRefs list).map (fun p => p.val)).map (fun d => max 1 d.Names.length) := by
    rw [List.map_map]
    rfl
  have hval : (fieldRefs list).map (fun p => p.val) = list := fieldRefsFrom_val 0 list
  rw [h3, hval] at h2
  have h4 : ((fun p => (emittedFor (fieldGroups (candidateOf srt list)) p).length) :
      FieldRef → Nat) = (List.length ∘ emittedFor (fieldGroups (candidateOf srt list))) := rfl
  rw [← h4, h2]

/-- C12, as the code has it: for a record with more than one declaration,
`generateReorderedStruct` on the candidate of `analyzeStruct` emits one declaration per
flattened entry, so a declaration binding several names is always emitted as one
declaration per name, also when its entries stay adjacent and in their original order: no
declaration of the output binds more than one name. -/
theorem generateReorderedStruct_always_splits (srt : SliceSorter) (structType : StructType)
    (fieldList : FieldList) (hf : structType.Fields = some fieldList)
    (hlen : 1 < fieldList.List.length) :
    ∃ newStruct : StructType,
      generateReorderedStruct structType (analyzeStruct srt structType).1 = some newStruct ∧
      (∀ d ∈ declarations newStruct, d.Names.length ≤ 1) ∧
      (declarations newStruct).length =
        (fieldList.List.map (fun d => max 1 d.Names.length)).sum := by
  refine ⟨_, generate_rebuilt srt structType fieldList hf hlen, ?_, ?_⟩
  · intro d hd
    obtain ⟨_, _, h, _⟩ := rebuilt_mem srt fieldList.List d hd
    exact h
  · exact rebuilt_count srt fieldList.List

/-- C12 as amended, at the record `ok bool; a, b int64`. -/
theorem generateReorderedStruct_always_splits_witness :
    1 < recordAdjacent.List.length ∧
    ∃ newStruct : StructType,
      generateReorderedStruct (structOf recordAdjacent.List)
        (analyzeStruct insertionSorter (structOf recordAdjacent.List)).1 = some newStruct ∧
      (∀ d ∈ declarations newStruct, d.Names.length ≤ 1) ∧
      (declarations newStruct).length =
        (recordAdjacent.List.map (fun d => max 1 d.Names.length)).sum :=
  ⟨by decide,
    generateReorderedStruct_always_splits insertionSorter (structOf recordAdjacent.List)
      recordAdjacent rfl (by decide)⟩

/-- C12 as stated fails at the record `ok bool; a, b int64`: in the candidate sequence the
entries `a` and `b` of the second declaration are adjacent and in their original order, and
the output still holds the two declarations `a int64` and `b int64` in place of one
declaration binding both names. -/
theorem adjacent_names_are_split :
    (analyzeStruct insertionSorter (structOf recordAdjacent.List)).1.map
      (fun e => (e.Name, e.Field.addr)) = [("a", 1), ("b", 1), ("ok", 0)] ∧
    (analyzeStruct insertionSorter (structOf recordAdjacent.List)).2 = true ∧
    (generateReorderedStruct (structOf recordAdjacent.List)
        (analyzeStruct insertionSorter (structOf recordAdjacent.List)).1).map
      (fun newStruct => (declarations newStruct).map
        (fun d => d.Names.map (fun name => name.Name))) = some [["a"], ["b"], ["ok"]] := by
  decide

/-- C20: fix mode converges within two passes.  For a record with more than one
declaration, the record `generateReorderedStruct` builds from the candidate of
`analyzeStruct` has only declarations binding at most one name and non-increasing flattened
sizes, and either its analysis gives "no reordering needed" or the analysis of the record
rebuilt from its candidate does. -/
theorem fix_converges_in_two_passes (srt : SliceSorter) (structType : StructType)
    (fieldList : FieldList) (hf : structType.Fields = some fieldList)
    (hlen : 1 < fieldList.List.length) :
    ∃ first : StructType,
      generateReorderedStruct structType (analyzeStruct srt structType).1 = some first ∧
      (∀ d ∈ declarations first, d.Names.length ≤ 1) ∧
      ((flattenFields (fieldRefs (declarations first))).map (fun e => e.TypeSize)).Pairwise
        (fun a b => b ≤ a) ∧
      ((analyzeStruct srt first).2 = false ∨
        ∃ second : StructType,
          generateReorderedStruct first (analyzeStruct srt first).1 = some second ∧
          (analyzeStruct srt second).2 = false) := by
  have hnames : ∀ d ∈ rebuilt srt fieldList.List, d.Names.length ≤ 1 := by
    intro d hd
    obtain ⟨_, _, h, _⟩ := rebuilt_mem srt fieldList.List d hd
    exact h
  refine ⟨_, generate_rebuilt srt structType fieldList hf hlen, hnames,
    flatten_sizes_ordered _ (rebuilt_types_ordered srt fieldList.List), Or.inr ?_⟩
  have hlen2 : 1 < (rebuilt srt fieldList.List).length :=
    lt_of_lt_of_le hlen (rebuilt_length srt fieldList.List)
  exact ⟨_, generate_rebuilt srt _ _ rfl hlen2,
    reanalysis_single srt (rebuilt srt fieldList.List) hnames _ rfl⟩

/-- C20 at the record `a, c int64; b int64`, where the first pass leaves `a, c, b` and the
second pass is needed. -/
theorem fix_converges_in_two_passes_witness :
    1 < recordACB.List.length ∧
    ∃ first : StructType,
      generateReorderedStruct (structOf recordACB.List)
        (analyzeStruct insertionSorter (structOf recordACB.List)).1 = some first ∧
      (∀ d ∈ declarations first, d.Names.length ≤ 1) ∧
      ((flattenFields (fieldRefs (declarations first))).map (fun e => e.TypeSize)).Pairwise
        (fun a b => b ≤ a) ∧
      ((analyzeStruct insertionSorter first).2 = false ∨
        ∃ second : StructType,
          generateReorderedStruct first (analyzeStruct insertionSorter first).1 = some second ∧
          (analyzeStruct insertionSorter second).2 = false) :=
  ⟨by decide,
    fix_converges_in_two_passes insertionSorter (structOf recordACB.List) recordACB rfl
      (by decide)⟩

/-! ## Records whose (size, name) pairs are all different -/

theorem map_eq_of_injOn {α β : Type} (f : α → β) (xs ys : List α)
    (h : xs.map f = ys.map f) (hinj : ∀ x ∈ xs, ∀ y ∈ ys, f x = f y → x = y) : xs = ys := by
  induction xs generalizing ys with
  | nil =>
    cases ys with
    | nil => rfl
    | cons y ys => simp at h
  | cons x xs ih =>
    cases ys with
    | nil => simp at h
    | cons y ys =>
      simp only [List.map_cons, List.cons.injEq] at h
      have hxy := hinj x (List.mem_cons_self _ _) y (List.mem_cons_self _ _) h.1
      rw [hxy, ih ys h.2 (fun a ha b hb =>
        hinj a (List.mem_cons_of_mem _ ha) b (List.mem_cons_of_mem _ hb))]

theorem sort_eq_insertion (srt : SliceSorter) (fields : List FieldInfo)
    (hnodup : (fields.map (fun e => (e.TypeSize, e.Name))).Nodup) :
    srt.sort less fields = insertionSorter.sort less fields := by
  have hp1 := sort_perm srt fields
  have hp2 := sort_perm insertionSorter fields
  apply map_eq_of_injOn (fun e : FieldInfo => (e.TypeSize, e.Name))
  · exact keys_unique _ _ ((hp1.trans hp2.symm).map _) (sort_pairwise srt fields)
      (sort_pairwise insertionSorter fields)
  · intro x hx y hy hxy
    exact List.inj_on_of_nodup_map hnodup (hp1.subset hx) (hp2.subset hy) hxy

theorem analyzeStruct_eq_insertion (srt : SliceSorter) (structType : StructType)
    (hnodup : ((flattenFields (fieldRefs (declarations structType))).map
      (fun e => (e.TypeSize, e.Name))).Nodup) :
    analyzeStruct srt structType = analyzeStruct insertionSorter structType := by
  rw [analyzeStruct_declarations, analyzeStruct_declarations, sort_eq_insertion srt _ hnodup]

theorem rebuilt_eq_insertion (srt : SliceSorter) (list : List Field)
    (hnodup : ((flattenFields (fieldRefs list)).map (fun e => (e.TypeSize, e.Name))).Nodup) :
    rebuilt srt list = rebuilt insertionSorter list := by
  unfold rebuilt candidateOf
  rw [sort_eq_insertion srt _ hnodup]

/-- C17: fix mode is not idempotent in general.  For the record `a, c int64; b int64`,
whatever `sort.Slice` does on ties, the verdict of `analyzeStruct` is "needs reordering",
the record `generateReorderedStruct` builds from the candidate is `a int64; c int64;
b int64`, and analysing that record gives "needs reordering" again. -/
theorem fix_not_idempotent (srt : SliceSorter) :
    (analyzeStruct srt (structOf recordACB.List)).2 = true ∧
    ∃ newStruct : StructType,
      generateReorderedStruct (structOf recordACB.List)
        (analyzeStruct srt (structOf recordACB.List)).1 = some newStruct ∧
      (declarations newStruct).map (fun d => d.Names.map (fun name => name.Name)) =
        [["a"], ["c"], ["b"]] ∧
      (analyzeStruct srt newStruct).2 = true := by
  have h1 : analyzeStruct srt (structOf recordACB.List) =
      analyzeStruct insertionSorter (structOf recordACB.List) :=
    analyzeStruct_eq_insertion srt _ (by decide)
  have h2 : rebuilt srt recordACB.List = rebuilt insertionSorter recordACB.List :=
    rebuilt_eq_insertion srt _ (by decide)
  refine ⟨by rw [h1]; decide, _,
    generate_rebuilt srt (structOf recordACB.List) recordACB rfl (by decide), ?_, ?_⟩
  · simp only [declarations]
    rw [h2]
    decide
  · rw [analyzeStruct_eq_insertion srt _ (by simp only [declarations]; rw [h2]; decide)]
    simp only [h2]
    decide

/-! ## The order of the reconstructed declarations -/

theorem firstEntries_filter (reorderedFields : List FieldInfo) (processed : Nat → Bool) :
    firstEntries reorderedFields processed =
      (firstOccurrences reorderedFields).filter (fun fj => !processed fj.Field.addr) := by
  induction reorderedFields generalizing processed with
  | nil => rfl
  | cons x rest ih =>
    unfold firstEntries firstOccurrences
    by_cases hp : processed x.Field.addr = true
    · rw [if_pos hp, ih, List.filter_cons, if_neg (by simp [hp]), List.filter_filter]
      apply List.filter_congr
      intro fj _
      by_cases he : fj.Field.addr = x.Field.addr
      · simp [he, hp]
      · simp [he]
    · rw [if_neg hp, ih, List.filter_cons, if_pos (by simpa using hp), List.filter_filter]
      congr 1
      apply List.filter_congr
      intro fj _
      by_cases he : fj.Field.addr = x.Field.addr
      · rw [he, Function.update_same]
        simp
      · simp [he, Function.update_noteq he]

theorem firstEntries_eq_firstOccurrences (reorderedFields : List FieldInfo) :
    firstEntries reorderedFields (fun _ => false) = firstOccurrences reorderedFields := by
  rw [firstEntries_filter]
  simp

theorem emittedFor_pairs_eq (srt : SliceSorter) (list : List Field) (owner : FieldRef)
    (ho : owner ∈ fieldRefs list) :
    (emittedFor (fieldGroups (candidateOf srt list)) owner).flatMap declPairs =
      ((candidateOf srt list).filter (fun fj => decide (fj.Field.addr = owner.addr))).map
        (fun e => (e.Name, e.Field.val.Type_)) := by
  rw [← fieldGroups_eq]
  have hg := (group_of_candidate srt list owner ho).1
  unfold emittedFor
  split
  · rename_i h1
    obtain ⟨a, ha⟩ := List.length_eq_one.1 h1
    have hperm : [a].Perm (fieldInfos owner) := by
      unfold candidateOf at ha
      rw [← ha]
      exact hg
    have hfi : fieldInfos owner = [a] := List.perm_singleton.1 hperm.symm
    rw [ha, List.flatMap_singleton, ← fieldInfos_pairs, hfi]
  · rw [List.flatMap_map]
    simp only [declPairs_splitField]
    exact flatMap_singleton_map _ _

/-- C11: for a record with more than one declaration, the output of
`generateReorderedStruct` on the candidate of `analyzeStruct` lists the owning declarations
in the order of their first entry in the candidate sequence, and at that place all entries
of the declaration, in their relative order in the candidate sequence.  For `x, y int32;
z int64` the analysis gives (z, 8), (x, 4), (y, 4) with the verdict "needs reordering" and
the reconstruction is `z int64; x int32; y int32`. -/
theorem reconstruction_order (srt : SliceSorter) (structType : StructType)
    (fieldList : FieldList) (hf : structType.Fields = some fieldList)
    (hlen : 1 < fieldList.List.length) :
    (∃ newStruct : StructType,
      generateReorderedStruct structType (analyzeStruct srt structType).1 = some newStruct ∧
      fieldPairs (declarations newStruct) =
        (firstOccurrences (analyzeStruct srt structType).1).flatMap
          (fun fi => ((analyzeStruct srt structType).1.filter
            (fun fj => decide (fj.Field.addr = fi.Field.addr))).map
              (fun e => (e.Name, e.Field.val.Type_))) ∧
      (declarations newStruct).length = (analyzeStruct srt structType).1.length) ∧
    (analyzeStruct srt (structOf recordXYZ.List)).1.map (fun e => (e.Name, e.TypeSize)) =
      [("z", 8), ("x", 4), ("y", 4)] ∧
    (analyzeStruct srt (structOf recordXYZ.List)).2 = true ∧
    (generateReorderedStruct (structOf recordXYZ.List)
        (analyzeStruct srt (structOf recordXYZ.List)).1).map
      (fun newStruct => (declarations newStruct).map
        (fun d => (d.Names.map (fun name => name.Name), getTypeSize d.Type_))) =
      some [(["z"], 8), (["x"], 4), (["y"], 4)] := by
  have h1 : analyzeStruct srt (structOf recordXYZ.List) =
      analyzeStruct insertionSorter (structOf recordXYZ.List) :=
    analyzeStruct_eq_insertion srt _ (by decide)
  refine ⟨⟨_, generate_rebuilt srt structType fieldList hf hlen, ?_, ?_⟩, ?_, ?_, ?_⟩
  · rw [analyzeStruct_eq srt structType fieldList hf hlen]
    simp only [declarations]
    rw [fieldPairs_eq]
    unfold rebuilt
    rw [List.flatMap_assoc, firstEntries_eq_firstOccurrences]
    apply List.flatMap_congr
    intro fi hfi
    rw [← firstEntries_eq_firstOccurrences] at hfi
    exact emittedFor_pairs_eq srt fieldList.List fi.Field (first_field_mem srt _ fi hfi)
  · rw [analyzeStruct_eq srt structType fieldList hf hlen]
    simp only [declarations]
    rw [rebuilt_count, (sort_perm srt _).length_eq]
    exact (flattenFields_length_from 0 _).symm
  · rw [h1]
    decide
  · rw [h1]
    decide
  · rw [h1]
    decide

/-- C11 at the record `a, c int64; b int64`: the output is `a`, `c`, `b`. -/
theorem reconstruction_order_witness :
    1 < recordACB.List.length ∧
    ∃ newStruct : StructType,
      generateReorderedStruct (structOf recordACB.List)
        (analyzeStruct insertionSorter (structOf recordACB.List)).1 = some newStruct ∧
      fieldPairs (declarations newStruct) =
        (firstOccurrences (analyzeStruct insertionSorter (structOf recordACB.List)).1).flatMap
          (fun fi => ((analyzeStruct insertionSorter (structOf recordACB.List)).1.filter
            (fun fj => decide (fj.Field.addr = fi.Field.addr))).map
              (fun e => (e.Name, e.Field.val.Type_))) ∧
      (declarations newStruct).length =
        (analyzeStruct insertionSorter (structOf recordACB.List)).1.length :=
  ⟨by decide,
    (reconstruction_order insertionSorter (structOf recordACB.List) recordACB rfl
      (by decide)).1⟩

/-! ## The exit status of a lint run -/

/-- C15 on the code: a file in which a record needs reordering leaves the exit status 0;
the first clean file ends the process with status 0, so a later file that needs reordering
is never visited and an earlier parse failure is not reported in the status. -/
theorem lint_exit_status :
    lintMain insertionSorter [fileNeedsReordering] = (0, 1) ∧
    lintMain insertionSorter [fileClean, fileNeedsReordering] = (0, 1) ∧
    lintMain insertionSorter [.parseError, fileClean, fileNeedsReordering] = (0, 2) ∧
    lintMain insertionSorter [.parseError, fileNeedsReordering] = (1, 2) := by
  decide

/-! ## Ties in the candidate sequence -/

/-- C13, as the code has it: `sort.Slice` promises nothing on the order of ties.  For a
record with more than one declaration and every `sort.Slice` meeting its contract, the
candidate entries with a given (size, name) are the flattened entries with that pair, the
same owners each as often, in some order; and the (size, name) at every position of the
candidate and the verdict do not depend on how `sort.Slice` orders ties. -/
theorem ties_keep_their_entries (srt : SliceSorter) (structType : StructType)
    (fieldList : FieldList) (hf : structType.Fields = some fieldList)
    (hlen : 1 < fieldList.List.length) (size : Nat) (name : String) :
    ((analyzeStruct srt structType).1.filter
        (fun e => decide (e.TypeSize = size ∧ e.Name = name))).Perm
      ((flattenFields (fieldRefs fieldList.List)).filter
        (fun e => decide (e.TypeSize = size ∧ e.Name = name))) ∧
    (tiedOwners (analyzeStruct srt structType).1 size name).Perm
      (tiedOwners (flattenFields (fieldRefs fieldList.List)) size name) ∧
    ∀ other : SliceSorter,
      (analyzeStruct other structType).1.map (fun e => (e.TypeSize, e.Name)) =
        (analyzeStruct srt structType).1.map (fun e => (e.TypeSize, e.Name)) ∧
      (analyzeStruct other structType).2 = (analyzeStruct srt structType).2 := by
  have hperm := (sort_perm srt (flattenFields (fieldRefs fieldList.List))).filter
    (fun e => decide (e.TypeSize = size ∧ e.Name = name))
  refine ⟨?_, ?_, ?_⟩
  · rw [analyzeStruct_eq srt structType fieldList hf hlen]
    exact hperm
  · rw [analyzeStruct_eq srt structType fieldList hf hlen]
    exact hperm.map _
  · intro other
    rw [analyzeStruct_eq srt structType fieldList hf hlen,
      analyzeStruct_eq other structType fieldList hf hlen]
    have hkeys : (other.sort less (flattenFields (fieldRefs fieldList.List))).map
        (fun e => (e.TypeSize, e.Name)) =
        (srt.sort less (flattenFields (fieldRefs fieldList.List))).map
          (fun e => (e.TypeSize, e.Name)) :=
      keys_unique _ _ (((sort_perm other _).trans (sort_perm srt _).symm).map _)
        (sort_pairwise other _) (sort_pairwise srt _)
    exact ⟨hkeys, needsReordering_congr _ _ _ _ rfl hkeys (sort_perm other _).length_eq.symm⟩

/-- C13 as amended, at the record with the embedded `*Base` and `*Mixin` around the field
`id int64`: the two embedded entries tie, and the candidate holds the owners 0 and 2 of the
flattened sequence. -/
theorem ties_keep_their_entries_witness :
    1 < (3 : Nat) ∧
    (tiedOwners (analyzeStruct insertionSorter (structOf [plainField [] (.StarExpr (.Ident "Base")),
        plainField ["id"] (.Ident "int64"),
        plainField [] (.StarExpr (.Ident "Mixin"))])).1 8 "").Perm
      (tiedOwners (flattenFields (fieldRefs [plainField [] (.StarExpr (.Ident "Base")),
        plainField ["id"] (.Ident "int64"),
        plainField [] (.StarExpr (.Ident "Mixin"))])) 8 "") ∧
    tiedOwners (flattenFields (fieldRefs [plainField [] (.StarExpr (.Ident "Base")),
        plainField ["id"] (.Ident "int64"),
        plainField [] (.StarExpr (.Ident "Mixin"))])) 8 "" = [0, 2] :=
  ⟨by decide,
    (ties_keep_their_entries insertionSorter (structOf [plainField [] (.StarExpr (.Ident "Base")),
        plainField ["id"] (.Ident "int64"),
        plainField [] (.StarExpr (.Ident "Mixin"))]) _ rfl (by decide) 8 "").2.1,
    by decide⟩

/-- C13 as stated fails at a record of thirteen fields: the embedded `int32` (declaration 0)
and the embedded `uint32` (declaration 5) have the same size and the same empty name.  In
the flattened sequence `int32` comes first; in the slice that `sort.Slice` (pdqsort) leaves
`uint32` comes first; and a `sort.Slice` that meets the contract and leaves that slice makes
it the candidate sequence of `analyzeStruct`. -/
theorem sort_not_stable :
    tiedOwners (flattenFields (fieldRefs recordThirteen.List)) 4 "" = [0, 5] ∧
    (pdqsortSlice less (flattenFields (fieldRefs recordThirteen.List))).map
        (fun sorted => sorted.val.map (fun e => e.Field.addr)) =
      some [1, 2, 3, 4, 6, 5, 0, 7, 8, 9, 10, 11, 12] ∧
    (pdqsortSlice less (flattenFields (fieldRefs recordThirteen.List))).map
        (fun sorted => tiedOwners sorted.val 4 "") = some [5, 0] ∧
    ∃ srt : SliceSorter,
      (pdqsortSlice less (flattenFields (fieldRefs recordThirteen.List))).map
          (fun sorted => sorted.val.map (fun e => e.Field.addr)) =
        some ((analyzeStruct srt (structOf recordThirteen.List)).1.map
          (fun e => e.Field.addr)) ∧
      tiedOwners (analyzeStruct srt (structOf recordThirteen.List)).1 4 "" = [5, 0] := by
  refine ⟨by decide, by decide, by decide,
    { sort := fun lt xs =>
        match pdqsortSlice lt xs with
        | some sorted =>
          if sorted.val.Pairwise (fun a b => lt b a = false) then sorted.val
          else insertionSort_func lt xs
        | none => insertionSort_func lt xs
      perm := ?_
      sorted := ?_ }, ?_, ?_⟩
  · intro lt xs
    dsimp only
    split
    · rename_i sorted _
      split
      · exact sorted.property
      · exact insertionSorter.perm lt xs
    · exact insertionSorter.perm lt xs
  · intro lt xs hasym htrans
    dsimp only
    split
    · split
      · assumption
      · exact insertionSorter.sorted lt xs hasym htrans
    · exact insertionSorter.sorted lt xs hasym htrans
  · decide
  · decide

end LintStructPadding
